import Mathlib

/-!
Verification development for the juju/schema coercion library.

The Go source (fieldmap.go, checker.go, const.go, util.go) is shallowly
embedded here:

* Go interface values fed to checkers become the inductive type GoVal.
  Maps are represented as association lists together with the kind of
  their Go key type, which is what the reflect-based code dispatches on:
  strMap models a map with key type exactly string, ifaceMap models a map
  keyed by an interface (any) type whose stored keys are arbitrary values,
  and intMap models a map keyed by a concrete non-string type to which a
  string key is not assignable (such as map[int]int).
* Checkers become the inductive type Checker; the Schema struct keeps its
  fields as association lists (Go maps have unique keys, so list inputs
  with duplicate keys do not correspond to any Go value; theorems that
  need uniqueness carry explicit no-duplicate hypotheses).
* Coerce results become the Outcome type: ok, a structured error, or a
  runtime panic.  The error struct of the repository (its definition is
  not under src, only its construction sites) is modelled from the spec:
  a validation error carries the expected-shape description, the actual
  value and the path; the fmt.Errorf errors of fieldmap.go are modelled
  by one structured constructor per construction site.
* reflect.DeepEqual on embedded values is structural equality of GoVal
  (association-list maps are compared entrywise).
-/

namespace JujuSchema

/-- Kind of a dynamically-typed Go value handed to a checker.  The three
map constructors record the Go key type as the reflect code observes it:
strMap is map[string]V, ifaceMap is a map keyed by an interface type
(keys stored as arbitrary values), intMap stands for a map keyed by a
concrete non-string, non-interface type (string keys are not assignable
to it, as in map[int]int). -/
inductive GoVal where
  | nil : GoVal
  | bool (b : Bool) : GoVal
  | int (n : Int) : GoVal
  | str (s : String) : GoVal
  | strMap (entries : List (String × GoVal)) : GoVal
  | ifaceMap (entries : List (GoVal × GoVal)) : GoVal
  | intMap (entries : List (Int × GoVal)) : GoVal

mutual

/-- Structural deep equality of embedded Go values, the model of
reflect.DeepEqual (values of different dynamic types are never equal;
association-list maps are compared entrywise). -/
def beqGo : GoVal → GoVal → Bool
  | GoVal.nil, GoVal.nil => true
  | GoVal.bool a, GoVal.bool b => a == b
  | GoVal.int a, GoVal.int b => a == b
  | GoVal.str a, GoVal.str b => a == b
  | GoVal.strMap a, GoVal.strMap b => beqSL a b
  | GoVal.ifaceMap a, GoVal.ifaceMap b => beqPL a b
  | GoVal.intMap a, GoVal.intMap b => beqIL a b
  | _, _ => false
termination_by a _ => sizeOf a
decreasing_by all_goals simp_wf <;> omega

/-- Entrywise equality of string-keyed map entries. -/
def beqSL : List (String × GoVal) → List (String × GoVal) → Bool
  | [], [] => true
  | (k1, v1) :: r1, (k2, v2) :: r2 => k1 == k2 && beqGo v1 v2 && beqSL r1 r2
  | _, _ => false
termination_by l _ => sizeOf l
decreasing_by all_goals simp_wf <;> omega

/-- Entrywise equality of interface-keyed map entries. -/
def beqPL : List (GoVal × GoVal) → List (GoVal × GoVal) → Bool
  | [], [] => true
  | (k1, v1) :: r1, (k2, v2) :: r2 => beqGo k1 k2 && beqGo v1 v2 && beqPL r1 r2
  | _, _ => false
termination_by l _ => sizeOf l
decreasing_by all_goals simp_wf <;> omega

/-- Entrywise equality of int-keyed map entries. -/
def beqIL : List (Int × GoVal) → List (Int × GoVal) → Bool
  | [], [] => true
  | (k1, v1) :: r1, (k2, v2) :: r2 => k1 == k2 && beqGo v1 v2 && beqIL r1 r2
  | _, _ => false
termination_by l _ => sizeOf l
decreasing_by all_goals simp_wf <;> omega

end

/-- Soundness and completeness of beqGo and its list helpers with
respect to propositional equality, proved together by strong induction
on the size bound. -/
def beqAll (n : Nat) :
    (∀ a b : GoVal, sizeOf a ≤ n → (beqGo a b = true ↔ a = b)) ∧
    (∀ l m : List (String × GoVal), sizeOf l ≤ n → (beqSL l m = true ↔ l = m)) ∧
    (∀ l m : List (GoVal × GoVal), sizeOf l ≤ n → (beqPL l m = true ↔ l = m)) ∧
    (∀ l m : List (Int × GoVal), sizeOf l ≤ n → (beqIL l m = true ↔ l = m)) := by
  induction n using Nat.strong_induction_on with
  | _ n ih =>
    refine ⟨?_, ?_, ?_, ?_⟩
    · intro a b hle
      cases a <;> cases b <;> simp [beqGo]
      case strMap.strMap es1 es2 =>
        have hlt : sizeOf es1 < n := by simp at hle; omega
        exact (ih (sizeOf es1) hlt).2.1 es1 es2 le_rfl
      case ifaceMap.ifaceMap es1 es2 =>
        have hlt : sizeOf es1 < n := by simp at hle; omega
        exact (ih (sizeOf es1) hlt).2.2.1 es1 es2 le_rfl
      case intMap.intMap es1 es2 =>
        have hlt : sizeOf es1 < n := by simp at hle; omega
        exact (ih (sizeOf es1) hlt).2.2.2 es1 es2 le_rfl
    · intro l m hle
      match l, m with
      | [], [] => simp [beqSL]
      | [], _ :: _ => simp [beqSL]
      | _ :: _, [] => simp [beqSL]
      | (k1, v1) :: r1, (k2, v2) :: r2 =>
        have h1 : sizeOf v1 < n := by simp at hle; omega
        have h2 : sizeOf r1 < n := by simp at hle; omega
        simp [beqSL, Bool.and_eq_true, (ih (sizeOf v1) h1).1 v1 v2 le_rfl,
          (ih (sizeOf r1) h2).2.1 r1 r2 le_rfl, and_assoc]
    · intro l m hle
      match l, m with
      | [], [] => simp [beqPL]
      | [], _ :: _ => simp [beqPL]
      | _ :: _, [] => simp [beqPL]
      | (k1, v1) :: r1, (k2, v2) :: r2 =>
        have h0 : sizeOf k1 < n := by simp at hle; omega
        have h1 : sizeOf v1 < n := by simp at hle; omega
        have h2 : sizeOf r1 < n := by simp at hle; omega
        simp [beqPL, Bool.and_eq_true, (ih (sizeOf k1) h0).1 k1 k2 le_rfl,
          (ih (sizeOf v1) h1).1 v1 v2 le_rfl,
          (ih (sizeOf r1) h2).2.2.1 r1 r2 le_rfl, and_assoc]
    · intro l m hle
      match l, m with
      | [], [] => simp [beqIL]
      | [], _ :: _ => simp [beqIL]
      | _ :: _, [] => simp [beqIL]
      | (k1, v1) :: r1, (k2, v2) :: r2 =>
        have h1 : sizeOf v1 < n := by simp at hle; omega
        have h2 : sizeOf r1 < n := by simp at hle; omega
        simp [beqIL, Bool.and_eq_true, (ih (sizeOf v1) h1).1 v1 v2 le_rfl,
          (ih (sizeOf r1) h2).2.2.2 r1 r2 le_rfl, and_assoc]

/-- Decidable equality of embedded Go values, via beqGo. -/
instance instDecEqGoVal : DecidableEq GoVal := fun a b =>
  if h : beqGo a b = true then isTrue (((beqAll (sizeOf a)).1 a b le_rfl).1 h)
  else isFalse (fun he => h (((beqAll (sizeOf a)).1 a b le_rfl).2 he))

/-- Default entry of a Schema: either the Omit sentinel or a literal
default value.  Models the comparison dflt == Omit of fieldmap.go (an
interface comparison against the omit marker). -/
inductive Dflt where
  | omit : Dflt
  | value (v : GoVal) : Dflt
deriving DecidableEq

/-- Dependency between two fields, from fieldmap.go. -/
structure Dependency where
  dependsOn : String
  value : GoVal
deriving DecidableEq

/-- Structured errors of the library.  The first constructor models the
error_ struct (modelled from the spec: it carries the expected-shape
description, the offending value and the path); the remaining
constructors model the fmt.Errorf calls of fieldmap.go, one per
construction site, carrying the values interpolated into the message. -/
inductive Err where
  | expected (want : String) (got : GoVal) (path : List String)
  | unknownKey (path : List String) (name : String) (value : GoVal)
  | unknownField (name : String)
  | depNotEqual (name : String) (dependsOn : String) (actual : GoVal) (value : GoVal)
  | depNotSpecified (name : String) (value : GoVal) (dependsOn : String)
  | depFieldMissing (dependsOn : String) (actual : GoVal) (name : String)
deriving DecidableEq

/-- Result of running Go code that may return normally, return an error,
or panic. -/
inductive Outcome (α : Type) where
  | ok (a : α) : Outcome α
  | err (e : Err) : Outcome α
  | panics (msg : String) : Outcome α
deriving DecidableEq

/-- Association-list lookup by string key, modelling Go map indexing for
a map with string keys. -/
def alookup {α : Type} : List (String × α) → String → Option α
  | [], _ => none
  | (k, a) :: rest, name => if k = name then some a else alookup rest name

/-- Size bound for association-list lookup, used for the termination of
the mutually recursive coercion functions. -/
def alookup_sizeOf_lt {α : Type} [SizeOf α] :
    ∀ (l : List (String × α)) (nm : String) (c : α),
      alookup l nm = some c → sizeOf c < sizeOf l := by
  intro l
  induction l with
  | nil => intro nm c h; simp [alookup] at h
  | cons hd tl ih =>
    obtain ⟨k, a⟩ := hd
    intro nm c h
    rw [alookup] at h
    split at h
    · cases h
      simp
      omega
    · have := ih nm c h
      simp
      omega

/-- Lookup of a string key in a map keyed by an interface type: the Go
lookup compares the interface key against the string, so only entries
whose key value is that string match. -/
def ifaceLookup : List (GoVal × GoVal) → String → Option GoVal
  | [], _ => none
  | (k, a) :: rest, name => if k = GoVal.str name then some a else ifaceLookup rest name

/-- Panic message for rv.MapIndex(reflect.ValueOf(name)) when a string
key is not assignable to the map key type (e.g. map[int]int). -/
def mapIndexPanicMsg : String := "reflect: string is not assignable to map key type"

/-- Panic message for invoking Coerce on a nil Checker interface. -/
def nilCheckerPanicMsg : String := "nil pointer dereference: Coerce on nil Checker"

/-- Indexing a map value with a string key, as rv.MapIndex does in
Schema.Coerce.  Only called on values that passed the map-kind check; in
Schema.Coerce the strict-string-keys check has also ruled intMap out, so
the final catch-all is unreachable there (mapSetC performs no such check
and models the panic explicitly). -/
def mapIndexStr : GoVal → String → Option GoVal
  | GoVal.strMap es, name => alookup es name
  | GoVal.ifaceMap es, name => ifaceLookup es name
  | _, _ => none

/-- Whether a value is a Go map (reflect Kind Map). -/
def isMapVal : GoVal → Bool
  | GoVal.strMap _ => true
  | GoVal.ifaceMap _ => true
  | GoVal.intMap _ => true
  | _ => false

/-- Whether a map entry of an interface-keyed map has a string key. -/
def isStrKeyEntry : GoVal × GoVal → Bool
  | (GoVal.str _, _) => true
  | _ => false

/-- hasStrictStringKeys from fieldmap.go: key type exactly string, or an
interface key type with every actual key a string value. -/
def hasStrictStringKeys : GoVal → Bool
  | GoVal.strMap _ => true
  | GoVal.ifaceMap es => es.all isStrKeyEntry
  | _ => false

/-- String rendering that reflect.Value.String() produces for a map key
of interface kind: it is not the underlying string, but the generic
form including the type. -/
def ifaceKeyString : String := "<interface \x7b\x7d Value>"

/-- Pairs (k.String(), value) that the strict-check loop of
Schema.Coerce ranges over.  For a string-keyed map k.String() is the key
itself; for an interface-keyed map reflect.Value.String() on the
interface-kinded key yields the generic type-and-Value form. -/
def strictPairs : GoVal → List (String × GoVal)
  | GoVal.strMap es => es
  | GoVal.ifaceMap es => es.map (fun kv => (ifaceKeyString, kv.2))
  | _ => []

/-- The strict-check loop of Schema.Coerce: the first ranged-over key
without a Checkers entry produces the unknown-key error. -/
def strictCheck {χ : Type} (checkers : List (String × χ)) (path : List String) :
    List (String × GoVal) → Option Err
  | [] => none
  | (name, value) :: rest =>
    if (alookup checkers name).isSome then strictCheck checkers path rest
    else some (Err.unknownKey path name value)

/-- Approximation of the fmt %#v rendering used for the expected
description of the Const checker; no claim depends on this string. -/
def goShow : GoVal → String
  | GoVal.nil => "<nil>"
  | GoVal.bool true => "true"
  | GoVal.bool false => "false"
  | GoVal.int n => toString n
  | GoVal.str s => "\x22" ++ s ++ "\x22"
  | GoVal.strMap _ => "map[string]interface \x7b\x7d"
  | GoVal.ifaceMap _ => "map[interface \x7b\x7d]interface \x7b\x7d"
  | GoVal.intMap _ => "map[int]interface \x7b\x7d"

/-- The dependency-resolution loop at the end of Schema.Coerce, run over
the already-coerced output map.  The branch order mirrors the Go switch;
reaching the end of the switch falls through to the next entry. -/
def resolveDeps : List (String × Dependency) → List (String × GoVal) → Option Err
  | [], _ => none
  | (name, dep) :: rest, out =>
    let actual := (alookup out dep.dependsOn).getD GoVal.nil
    if ¬(alookup out name).isSome ∧ ¬(alookup out dep.dependsOn).isSome then
      resolveDeps rest out
    else if (alookup out name).isSome ∧ (alookup out dep.dependsOn).isSome ∧ actual = dep.value then
      resolveDeps rest out
    else if (alookup out name).isSome ∧ (alookup out dep.dependsOn).isSome ∧ ¬actual = dep.value then
      some (Err.depNotEqual name dep.dependsOn actual dep.value)
    else if (alookup out name).isSome ∧ ¬(alookup out dep.dependsOn).isSome then
      some (Err.depNotSpecified name dep.value dep.dependsOn)
    else if ¬(alookup out name).isSome ∧ (alookup out dep.dependsOn).isSome ∧ actual = dep.value then
      some (Err.depFieldMissing dep.dependsOn actual name)
    else resolveDeps rest out

mutual

/-- Checker trees, one constructor per Checker implementation in the
source: anyC, constC, emptyC, oneOfC, the Schema struct (used as a
Checker), and mapSetC. -/
inductive Checker : Type where
  | anyC : Checker
  | constC (value : GoVal) : Checker
  | emptyC (valueLabel : String) : Checker
  | oneOfC (options : List Checker) : Checker
  | schemaC (s : Schema) : Checker
  | mapSetC (selector : String) (fmaps : List Schema) : Checker

/-- The Schema struct of fieldmap.go; its Go maps are represented as
association lists. -/
inductive Schema : Type where
  | mk (checkers : List (String × Checker))
       (defaults : List (String × Dflt))
       (dependencies : List (String × Dependency))
       (strict : Bool) : Schema

end

/-- Checkers field accessor. -/
def Schema.checkers : Schema → List (String × Checker)
  | Schema.mk c _ _ _ => c

/-- Defaults field accessor. -/
def Schema.defaults : Schema → List (String × Dflt)
  | Schema.mk _ d _ _ => d

/-- Dependencies field accessor. -/
def Schema.dependencies : Schema → List (String × Dependency)
  | Schema.mk _ _ d _ => d

/-- Strict field accessor. -/
def Schema.strict : Schema → Bool
  | Schema.mk _ _ _ s => s

mutual

/-- Coerce of the Checker interface, dispatching on the checker.  anyC
returns the value unchanged; constC compares with reflect.DeepEqual;
emptyC accepts exactly nil; oneOfC, Schema and mapSetC delegate to the
loops below. -/
def coerce : Checker → GoVal → List String → Outcome GoVal
  | Checker.anyC, v, _ => Outcome.ok v
  | Checker.constC value, v, path =>
    if v = value then Outcome.ok v
    else Outcome.err (Err.expected (goShow value) v path)
  | Checker.emptyC label, v, path =>
    if v = GoVal.nil then Outcome.ok v
    else Outcome.err (Err.expected ("empty " ++ label) v path)
  | Checker.oneOfC options, v, path => oneOfLoop options v path
  | Checker.schemaC s, v, path => schemaCoerce s v path
  | Checker.mapSetC sel fmaps, v, path => mapSetCoerce sel fmaps v path
termination_by c _ _ => sizeOf c + 1
decreasing_by all_goals simp_wf <;> omega

/-- Loop of oneOfC.Coerce: return the first successful result, skip any
error, and fall through to the generic error with an empty expected
description.  A panic in an option is not recovered. -/
def oneOfLoop : List Checker → GoVal → List String → Outcome GoVal
  | [], v, path => Outcome.err (Err.expected "" v path)
  | o :: rest, v, path =>
    match coerce o v path with
    | Outcome.ok w => Outcome.ok w
    | Outcome.err _ => oneOfLoop rest v path
    | Outcome.panics m => Outcome.panics m
termination_by opts _ _ => sizeOf opts
decreasing_by
  all_goals simp_wf
  all_goals
    first
    | omega
    | (have hr : 0 < sizeOf rest := by cases rest <;> simp_arith
       omega)

/-- Schema.Coerce from fieldmap.go: map-kind check, strict-string-keys
check, strict unknown-key check, the per-field loop, the defaults
backfill loop, and dependency resolution over the coerced output. -/
def schemaCoerce : Schema → GoVal → List String → Outcome GoVal
  | Schema.mk cks dflts deps strict, v, path =>
    if isMapVal v = false then Outcome.err (Err.expected "map" v path)
    else if hasStrictStringKeys v = false then
      Outcome.err (Err.expected "map[string]" v path)
    else
      match (if strict then strictCheck cks path (strictPairs v) else none) with
      | some e => Outcome.err e
      | none =>
        match fieldsLoop cks dflts deps v path [] with
        | Outcome.err e => Outcome.err e
        | Outcome.panics m => Outcome.panics m
        | Outcome.ok out1 =>
          match defaultsLoop dflts cks v path out1 with
          | Outcome.err e => Outcome.err e
          | Outcome.panics m => Outcome.panics m
          | Outcome.ok out2 =>
            match resolveDeps deps out2 with
            | some e => Outcome.err e
            | none => Outcome.ok (GoVal.strMap out2)
termination_by s _ _ => sizeOf s
decreasing_by all_goals simp_wf <;> omega

/-- The per-field loop of Schema.Coerce, iterating over the Checkers
entries.  The Go switch has no default: a field that is absent with no
default and no dependency falls through the switch and the checker is
invoked on the nil value. -/
def fieldsLoop : List (String × Checker) → List (String × Dflt) →
    List (String × Dependency) → GoVal → List String →
    List (String × GoVal) → Outcome (List (String × GoVal))
  | [], _, _, _, _, out => Outcome.ok out
  | (name, checker) :: rest, dflts, deps, v, path, out =>
    match mapIndexStr v name, alookup dflts name with
    | some value, _ =>
      match coerce checker value (path ++ [".", name]) with
      | Outcome.ok newv => fieldsLoop rest dflts deps v path (out ++ [(name, newv)])
      | Outcome.err e => Outcome.err e
      | Outcome.panics m => Outcome.panics m
    | none, some Dflt.omit => fieldsLoop rest dflts deps v path out
    | none, some (Dflt.value d) =>
      match coerce checker d (path ++ [".", name]) with
      | Outcome.ok newv => fieldsLoop rest dflts deps v path (out ++ [(name, newv)])
      | Outcome.err e => Outcome.err e
      | Outcome.panics m => Outcome.panics m
    | none, none =>
      if (alookup deps name).isSome then fieldsLoop rest dflts deps v path out
      else
        match coerce checker GoVal.nil (path ++ [".", name]) with
        | Outcome.ok newv => fieldsLoop rest dflts deps v path (out ++ [(name, newv)])
        | Outcome.err e => Outcome.err e
        | Outcome.panics m => Outcome.panics m
termination_by cks _ _ _ _ _ => sizeOf cks
decreasing_by all_goals simp_wf <;> omega

/-- The defaults backfill loop of Schema.Coerce: for every non-Omit
default whose field is not yet in the output, a missing Checkers entry
is the got-default-value-for-unknown-field error, and otherwise the
checker is invoked on the entire input map v (the quirk of the source). -/
def defaultsLoop : List (String × Dflt) → List (String × Checker) → GoVal →
    List String → List (String × GoVal) → Outcome (List (String × GoVal))
  | [], _, _, _, out => Outcome.ok out
  | (name, val) :: rest, cks, v, path, out =>
    match val with
    | Dflt.omit => defaultsLoop rest cks v path out
    | Dflt.value _ =>
      if (alookup out name).isSome then defaultsLoop rest cks v path out
      else
        if hc : (alookup cks name).isSome then
          match coerce ((alookup cks name).get hc) v (path ++ [".", name]) with
          | Outcome.ok newv => defaultsLoop rest cks v path (out ++ [(name, newv)])
          | Outcome.err e => Outcome.err e
          | Outcome.panics m => Outcome.panics m
        else Outcome.err (Err.unknownField name)
termination_by dflts cks _ _ _ => sizeOf cks + sizeOf dflts
decreasing_by
  all_goals simp_wf
  all_goals try omega
  all_goals have := alookup_sizeOf_lt cks name ((alookup cks name).get hc) (Option.some_get hc).symm <;> omega

/-- mapSetC.Coerce from fieldmap.go: map-kind check only (no string-keys
check), then rv.MapIndex with the string selector, which panics when a
string is not assignable to the map key type. -/
def mapSetCoerce : String → List Schema → GoVal → List String → Outcome GoVal
  | sel, fmaps, v, path =>
    if isMapVal v = false then Outcome.err (Err.expected "map" v path)
    else
      match v with
      | GoVal.intMap _ => Outcome.panics mapIndexPanicMsg
      | _ =>
        match mapIndexStr v sel with
        | some selVal => mapSetLoop sel fmaps selVal v path
        | none =>
          Outcome.err (Err.expected "supported selector" GoVal.nil (path ++ [".", sel]))
termination_by _ fmaps _ _ => sizeOf fmaps + 1
decreasing_by all_goals simp_wf <;> omega

/-- Loop of mapSetC.Coerce: probe the raw selector value against each
variant selector checker (at the unextended path); the first accepting
variant coerces the whole input; a missing selector checker is a nil
interface whose method call panics. -/
def mapSetLoop : String → List Schema → GoVal → GoVal → List String → Outcome GoVal
  | sel, [], selVal, _, path =>
    Outcome.err (Err.expected "supported selector" selVal (path ++ [".", sel]))
  | sel, fmap :: rest, selVal, v, path =>
    if hsel : (alookup fmap.checkers sel).isSome then
      match coerce ((alookup fmap.checkers sel).get hsel) selVal path with
      | Outcome.err _ => mapSetLoop sel rest selVal v path
      | Outcome.panics m => Outcome.panics m
      | Outcome.ok _ => schemaCoerce fmap v path
    else Outcome.panics nilCheckerPanicMsg
termination_by _ fmaps _ _ _ => sizeOf fmaps
decreasing_by
  all_goals simp_wf
  all_goals try omega
  all_goals
    have h1 := alookup_sizeOf_lt fmap.checkers sel ((alookup fmap.checkers sel).get hsel)
      (Option.some_get hsel).symm
    cases fmap
    simp [Schema.checkers] at h1 ⊢
    omega

end

/-- The Omit sentinel of the package, as stored in Defaults. -/
def Omit : Dflt := Dflt.omit

/-- Any from checker.go. -/
def Any : Checker := Checker.anyC

/-- Const from const.go. -/
def Const (value : GoVal) : Checker := Checker.constC value

/-- Empty from const.go; an empty label is replaced by the word value. -/
def Empty (valueLabel : String) : Checker :=
  Checker.emptyC (if valueLabel = "" then "value" else valueLabel)

/-- OneOf from checker.go. -/
def OneOf (options : List Checker) : Checker := Checker.oneOfC options

/-- FieldMap from fieldmap.go: a non-strict Schema with no dependencies. -/
def FieldMap (checkers : List (String × Checker)) (defaults : List (String × Dflt)) : Checker :=
  Checker.schemaC (Schema.mk checkers defaults [] false)

/-- StrictFieldMap from fieldmap.go: as FieldMap with Strict set. -/
def StrictFieldMap (checkers : List (String × Checker)) (defaults : List (String × Dflt)) : Checker :=
  Checker.schemaC (Schema.mk checkers defaults [] true)

/-- FieldMapSet from fieldmap.go (its construction-time panics for
variants without a selector checker are not representable here; the
theorems that need the constructor contract carry it as a hypothesis). -/
def FieldMapSet (selector : String) (fmaps : List Schema) : Checker :=
  Checker.mapSetC selector fmaps

/-- Backfill variant used by claim C9: it raises the
got-default-value-for-unknown-field error for non-Omit defaulted fields
that are missing from Checkers and never invokes any checker. -/
def defaultsLoopAlt : List (String × Dflt) → List (String × Checker) →
    List (String × GoVal) → Outcome (List (String × GoVal))
  | [], _, out => Outcome.ok out
  | (name, val) :: rest, cks, out =>
    match val with
    | Dflt.omit => defaultsLoopAlt rest cks out
    | Dflt.value _ =>
      if (alookup out name).isSome then defaultsLoopAlt rest cks out
      else
        match alookup cks name with
        | none => Outcome.err (Err.unknownField name)
        | some _ => defaultsLoopAlt rest cks out

/-- Schema.Coerce with the backfill pass replaced by defaultsLoopAlt;
claim C9 states the real Schema.Coerce is observationally equal to this
variant. -/
def schemaCoerceAlt : Schema → GoVal → List String → Outcome GoVal
  | Schema.mk cks dflts deps strict, v, path =>
    if isMapVal v = false then Outcome.err (Err.expected "map" v path)
    else if hasStrictStringKeys v = false then
      Outcome.err (Err.expected "map[string]" v path)
    else
      match (if strict then strictCheck cks path (strictPairs v) else none) with
      | some e => Outcome.err e
      | none =>
        match fieldsLoop cks dflts deps v path [] with
        | Outcome.err e => Outcome.err e
        | Outcome.panics m => Outcome.panics m
        | Outcome.ok out1 =>
          match defaultsLoopAlt dflts cks out1 with
          | Outcome.err e => Outcome.err e
          | Outcome.panics m => Outcome.panics m
          | Outcome.ok out2 =>
            match resolveDeps deps out2 with
            | some e => Outcome.err e
            | none => Outcome.ok (GoVal.strMap out2)

/-- Keys of an association list are pairwise distinct.  Go maps cannot
hold duplicate keys, so association lists violating this do not
correspond to any Go value. -/
def nodupKeys {α : Type} (l : List (String × α)) : Prop := (l.map Prod.fst).Nodup

instance {α : Type} (l : List (String × α)) : Decidable (nodupKeys l) := by
  unfold nodupKeys
  infer_instance

mutual

/-- Checker trees built only from Any, Const, Empty, FieldMap and
StrictFieldMap (no OneOf, no FieldMapSet), with duplicate-free keys in
every Schema map, as Go maps guarantee.  This is the grammar of the
amended idempotence claim C7. -/
def plainC : Checker → Bool
  | Checker.anyC => true
  | Checker.constC _ => true
  | Checker.emptyC _ => true
  | Checker.oneOfC _ => false
  | Checker.mapSetC _ _ => false
  | Checker.schemaC s => plainS s
termination_by c => sizeOf c
decreasing_by all_goals simp_wf <;> omega

/-- Schema counterpart of plainC. -/
def plainS : Schema → Bool
  | Schema.mk cks dflts _ _ =>
    decide (nodupKeys cks) && decide (nodupKeys dflts) && plainL cks
termination_by s => sizeOf s
decreasing_by all_goals simp_wf <;> omega

/-- List counterpart of plainC over the field checkers. -/
def plainL : List (String × Checker) → Bool
  | [] => true
  | (_, c) :: rest => plainC c && plainL rest
termination_by l => sizeOf l
decreasing_by all_goals simp_wf <;> omega

end

/-! Helper lemmas about association-list lookup. -/

theorem alookup_append {α : Type} (l1 l2 : List (String × α)) (nm : String) :
    alookup (l1 ++ l2) nm =
      match alookup l1 nm with
      | some a => some a
      | none => alookup l2 nm := by
  induction l1 with
  | nil => simp [alookup]
  | cons hd tl ih =>
    obtain ⟨k, a⟩ := hd
    by_cases hk : k = nm <;> simp [alookup, hk, ih]

theorem alookup_eq_none {α : Type} (l : List (String × α)) (nm : String) :
    alookup l nm = none ↔ nm ∉ l.map Prod.fst := by
  induction l with
  | nil => simp [alookup]
  | cons hd tl ih =>
    obtain ⟨k, a⟩ := hd
    by_cases hk : k = nm
    · subst hk
      simp [alookup]
    · rw [alookup, if_neg hk, List.map_cons, List.mem_cons, ih]
      constructor
      · intro h hor
        rcases hor with h1 | h2
        · exact hk h1.symm
        · exact h h2
      · intro h h2
        exact h (Or.inr h2)

theorem alookup_isSome {α : Type} (l : List (String × α)) (nm : String) :
    (alookup l nm).isSome = true ↔ nm ∈ l.map Prod.fst := by
  rw [Option.isSome_iff_ne_none, ne_eq, alookup_eq_none, not_not]

theorem alookup_mem {α : Type} {l : List (String × α)} {nm : String} {a : α}
    (h : alookup l nm = some a) : (nm, a) ∈ l := by
  induction l with
  | nil => simp [alookup] at h
  | cons hd tl ih =>
    obtain ⟨k, b⟩ := hd
    rw [alookup] at h
    split at h
    · cases h
      simp_all
    · simp [ih h]

theorem mem_alookup_nodup {α : Type} {l : List (String × α)} (hnd : nodupKeys l)
    {nm : String} {a : α} (h : (nm, a) ∈ l) : alookup l nm = some a := by
  induction l with
  | nil => simp at h
  | cons hd tl ih =>
    obtain ⟨k, b⟩ := hd
    rw [nodupKeys, List.map_cons, List.nodup_cons] at hnd
    rcases List.mem_cons.1 h with heq | hmem
    · cases heq
      simp [alookup]
    · have hk : k ≠ nm := by
        intro hkeq
        subst hkeq
        exact hnd.1 (List.mem_map.2 ⟨(k, a), hmem, rfl⟩)
      rw [alookup, if_neg hk]
      exact ih hnd.2 hmem

/-! Helper lemmas about the OneOf loop. -/

theorem coerce_oneOfC (opts : List Checker) (v : GoVal) (p : List String) :
    coerce (Checker.oneOfC opts) v p = oneOfLoop opts v p := by
  simp [coerce]

theorem oneOfLoop_cons_err {o : Checker} {v : GoVal} {p : List String} {e : Err}
    (rest : List Checker) (h : coerce o v p = Outcome.err e) :
    oneOfLoop (o :: rest) v p = oneOfLoop rest v p := by
  simp [oneOfLoop, h]

theorem oneOfLoop_cons_ok {o : Checker} {v w : GoVal} {p : List String}
    (rest : List Checker) (h : coerce o v p = Outcome.ok w) :
    oneOfLoop (o :: rest) v p = Outcome.ok w := by
  simp [oneOfLoop, h]

theorem oneOfLoop_all_err (opts : List Checker) (v : GoVal) (p : List String)
    (h : ∀ o ∈ opts, ∃ e, coerce o v p = Outcome.err e) :
    oneOfLoop opts v p = Outcome.err (Err.expected "" v p) := by
  induction opts with
  | nil => simp [oneOfLoop]
  | cons o rest ih =>
    obtain ⟨e, he⟩ := h o (List.mem_cons_self o rest)
    rw [oneOfLoop_cons_err rest he]
    exact ih (fun o' ho' => h o' (List.mem_cons_of_mem o ho'))

/-- C4: OneOf returns the coerced result of the first checker that
succeeds on the value, the later alternatives never influencing the
result; when every alternative fails (including for the empty list) it
returns the generic failure at the current path carrying the value with
an empty expected-shape description.  In particular
OneOf [Const 1, Const 2] coerces 2 to 2 and fails on 3. -/
theorem C4_oneOf_first_success :
    (∀ (pre : List Checker) (c : Checker) (post : List Checker) (v w : GoVal) (p : List String),
      (∀ o ∈ pre, ∃ e, coerce o v p = Outcome.err e) →
      coerce c v p = Outcome.ok w →
      coerce (OneOf (pre ++ c :: post)) v p = Outcome.ok w) ∧
    (∀ (opts : List Checker) (v : GoVal) (p : List String),
      (∀ o ∈ opts, ∃ e, coerce o v p = Outcome.err e) →
      coerce (OneOf opts) v p = Outcome.err (Err.expected "" v p)) ∧
    (∀ p : List String,
      coerce (OneOf [Const (GoVal.int 1), Const (GoVal.int 2)]) (GoVal.int 2) p =
        Outcome.ok (GoVal.int 2)) ∧
    (∀ p : List String,
      coerce (OneOf [Const (GoVal.int 1), Const (GoVal.int 2)]) (GoVal.int 3) p =
        Outcome.err (Err.expected "" (GoVal.int 3) p)) := by
  refine ⟨?_, ?_, ?_, ?_⟩
  · intro pre c post v w p hpre hc
    rw [OneOf, coerce_oneOfC]
    induction pre with
    | nil => simpa using oneOfLoop_cons_ok post hc
    | cons o rest ih =>
      obtain ⟨e, he⟩ := hpre o (List.mem_cons_self o rest)
      rw [List.cons_append, oneOfLoop_cons_err _ he]
      exact ih (fun o' ho' => hpre o' (List.mem_cons_of_mem o ho'))
  · intro opts v p h
    rw [OneOf, coerce_oneOfC]
    exact oneOfLoop_all_err opts v p h
  · intro p
    simp [OneOf, Const, coerce, oneOfLoop]
  · intro p
    simp [OneOf, Const, coerce, oneOfLoop]

/-- Witness for C4, applying it at concrete inputs. -/
theorem C4_witness :
    coerce (OneOf ([Const (GoVal.int 1)] ++ Const (GoVal.int 2) :: [])) (GoVal.int 2) ["p"] =
      Outcome.ok (GoVal.int 2) ∧
    coerce (OneOf [Const (GoVal.int 1), Const (GoVal.int 2)]) (GoVal.int 3) ["p"] =
      Outcome.err (Err.expected "" (GoVal.int 3) ["p"]) := by
  constructor
  · refine C4_oneOf_first_success.1 [Const (GoVal.int 1)] (Const (GoVal.int 2)) [] (GoVal.int 2)
      (GoVal.int 2) ["p"] ?_ ?_
    · intro o ho
      simp at ho
      subst ho
      exact ⟨Err.expected (goShow (GoVal.int 1)) (GoVal.int 2) ["p"], by simp [Const, coerce]⟩
    · simp [Const, coerce]
  · exact C4_oneOf_first_success.2.2.2 ["p"]

/-- C10: on a mapping whose key type admits no string key (such as
map[int]int), mapSetC.Coerce passes the map-kind check but then panics
at the selector lookup instead of producing a structured error, whereas
Schema.Coerce rejects the same value with the map[string] error thanks
to its string-keys check. -/
theorem C10_mapset_intmap_panics (sel : String) (fmaps : List Schema)
    (es : List (Int × GoVal)) (p : List String) :
    coerce (Checker.mapSetC sel fmaps) (GoVal.intMap es) p = Outcome.panics mapIndexPanicMsg ∧
    mapSetCoerce sel fmaps (GoVal.intMap es) p = Outcome.panics mapIndexPanicMsg ∧
    (∀ s : Schema, schemaCoerce s (GoVal.intMap es) p =
      Outcome.err (Err.expected "map[string]" (GoVal.intMap es) p)) := by
  refine ⟨?_, ?_, ?_⟩
  · simp [coerce, mapSetCoerce, isMapVal]
  · simp [mapSetCoerce, isMapVal]
  · intro s
    cases s
    simp [schemaCoerce, isMapVal, hasStrictStringKeys]

/-- C6: Schema.Coerce rejects any non-mapping value expecting map, and
any mapping without strict string keys expecting map[string], for every
schema alike (hence before the strict check and before any per-field
coercion); hasStrictStringKeys holds for a string-keyed map, holds for
an interface-keyed map exactly when every actual key value is a string,
and fails for any other map key type. -/
theorem C6_shape_check :
    (∀ (s : Schema) (v : GoVal) (p : List String), isMapVal v = false →
      schemaCoerce s v p = Outcome.err (Err.expected "map" v p)) ∧
    (∀ (s : Schema) (v : GoVal) (p : List String), isMapVal v = true →
      hasStrictStringKeys v = false →
      schemaCoerce s v p = Outcome.err (Err.expected "map[string]" v p)) ∧
    (∀ es, hasStrictStringKeys (GoVal.strMap es) = true) ∧
    (∀ es, hasStrictStringKeys (GoVal.ifaceMap es) = es.all isStrKeyEntry) ∧
    (∀ es, hasStrictStringKeys (GoVal.intMap es) = false) := by
  refine ⟨?_, ?_, ?_, ?_, ?_⟩
  · intro s v p h
    cases s
    simp [schemaCoerce, h]
  · intro s v p h1 h2
    cases s
    simp [schemaCoerce, h1, h2]
  · intro es
    simp [hasStrictStringKeys]
  · intro es
    simp [hasStrictStringKeys]
  · intro es
    simp [hasStrictStringKeys]

/-- Witness for C6 at concrete inputs. -/
theorem C6_witness :
    schemaCoerce (Schema.mk [] [] [] false) (GoVal.int 1) [] =
      Outcome.err (Err.expected "map" (GoVal.int 1) []) ∧
    schemaCoerce (Schema.mk [] [] [] false) (GoVal.ifaceMap [(GoVal.int 7, GoVal.nil)]) [] =
      Outcome.err (Err.expected "map[string]" (GoVal.ifaceMap [(GoVal.int 7, GoVal.nil)]) []) :=
  ⟨C6_shape_check.1 _ _ _ rfl, C6_shape_check.2.1 _ _ _ rfl rfl⟩

/-- C8 counterexample: the first OneOf alternative fails with the
programming error of schema construction (a default for a field absent
from Checkers), yet OneOf discards that error and returns the second
alternative's success instead of propagating it. -/
theorem C8_counterexample :
    coerce (Checker.schemaC (Schema.mk [] [("a", Dflt.value (GoVal.int 5))] [] false))
      (GoVal.strMap []) [] = Outcome.err (Err.unknownField "a") ∧
    coerce (Checker.oneOfC
        [Checker.schemaC (Schema.mk [] [("a", Dflt.value (GoVal.int 5))] [] false),
         Checker.anyC])
      (GoVal.strMap []) [] = Outcome.ok (GoVal.strMap []) := by
  constructor <;>
    simp [coerce, oneOfLoop, schemaCoerce, fieldsLoop, defaultsLoop, resolveDeps, alookup,
      isMapVal, hasStrictStringKeys, strictPairs, strictCheck]

/-- C8 amended: oneOfC treats every failing alternative alike — any
error, including the programming errors of schema construction such as
a Defaults entry naming a field absent from Checkers, is discarded and
the next alternative is tried (with the generic failure substituted if
all fail); such errors are not propagated through OneOf. -/
theorem C8_oneOf_swallows :
    (∀ (c : Checker) (rest : List Checker) (v : GoVal) (p : List String) (e : Err),
      coerce c v p = Outcome.err e →
      coerce (Checker.oneOfC (c :: rest)) v p = coerce (Checker.oneOfC rest) v p) ∧
    coerce (Checker.oneOfC
        [Checker.schemaC (Schema.mk [] [("a", Dflt.value (GoVal.int 5))] [] false),
         Checker.anyC])
      (GoVal.strMap []) [] = Outcome.ok (GoVal.strMap []) := by
  constructor
  · intro c rest v p e h
    rw [coerce_oneOfC, coerce_oneOfC, oneOfLoop_cons_err rest h]
  · simp [coerce, oneOfLoop, schemaCoerce, fieldsLoop, defaultsLoop, resolveDeps, alookup,
      isMapVal, hasStrictStringKeys, strictPairs, strictCheck]

/-- Witness for C8, applying the swallowing lemma to the concrete
programming error. -/
theorem C8_witness :
    coerce (Checker.oneOfC
        [Checker.schemaC (Schema.mk [] [("a", Dflt.value (GoVal.int 5))] [] false),
         Checker.anyC])
      (GoVal.strMap []) [] = coerce (Checker.oneOfC [Checker.anyC]) (GoVal.strMap []) [] := by
  apply C8_oneOf_swallows.1 _ _ _ _ (Err.unknownField "a")
  simp [coerce, schemaCoerce, fieldsLoop, defaultsLoop, alookup, isMapVal,
    hasStrictStringKeys, strictPairs, strictCheck]

/-! Helper lemmas about the mapSetC loop. -/

theorem mapSetLoop_cons_err {sel : String} {fmap : Schema} {c : Checker} {selVal v : GoVal}
    {p : List String} {e : Err} (rest : List Schema)
    (hsel : alookup fmap.checkers sel = some c) (hprobe : coerce c selVal p = Outcome.err e) :
    mapSetLoop sel (fmap :: rest) selVal v p = mapSetLoop sel rest selVal v p := by
  simp [mapSetLoop, hsel, hprobe]

theorem mapSetLoop_cons_ok {sel : String} {fmap : Schema} {c : Checker} {selVal v w : GoVal}
    {p : List String} (rest : List Schema)
    (hsel : alookup fmap.checkers sel = some c) (hprobe : coerce c selVal p = Outcome.ok w) :
    mapSetLoop sel (fmap :: rest) selVal v p = schemaCoerce fmap v p := by
  simp [mapSetLoop, hsel, hprobe]

theorem mapSetLoop_all_err (sel : String) (fmaps : List Schema) (selVal v : GoVal)
    (p : List String)
    (h : ∀ g ∈ fmaps, ∃ c e, alookup g.checkers sel = some c ∧ coerce c selVal p = Outcome.err e) :
    mapSetLoop sel fmaps selVal v p =
      Outcome.err (Err.expected "supported selector" selVal (p ++ [".", sel])) := by
  induction fmaps with
  | nil => simp [mapSetLoop]
  | cons g rest ih =>
    obtain ⟨c, e, hc, he⟩ := h g (List.mem_cons_self g rest)
    rw [mapSetLoop_cons_err rest hc he]
    exact ih (fun g' hg' => h g' (List.mem_cons_of_mem g hg'))

/-- C3 counterexample: a FieldMapSet whose variant does declare a
selector checker, applied to a mapping keyed by a non-string
non-interface type; the selector key is absent from the input, yet
Coerce panics at the selector lookup instead of failing with the
supported-selector error the claim requires for every map input. -/
theorem C3_counterexample :
    mapSetCoerce "kind" [Schema.mk [("kind", Checker.anyC)] [] [] false]
      (GoVal.intMap []) [] = Outcome.panics mapIndexPanicMsg := by
  simp [mapSetCoerce, isMapVal]

/-- C3 amended: for map inputs keyed by string or by an interface type
(other key types panic at the selector lookup, see C10), mapSetC.Coerce
probes the raw selector value against each variant's selector checker
in order: the first accepting variant coerces the entire input through
its full Schema.Coerce and that result is returned; if the selector key
is absent or no variant's selector checker accepts the value, it fails
expecting supported selector at the path extended by dot and the
selector name. -/
theorem C3_mapset_dispatch (sel : String) (v : GoVal) (p : List String)
    (hv : (∃ es, v = GoVal.strMap es) ∨ (∃ es, v = GoVal.ifaceMap es)) :
    (∀ fmaps : List Schema, mapIndexStr v sel = none →
      mapSetCoerce sel fmaps v p =
        Outcome.err (Err.expected "supported selector" GoVal.nil (p ++ [".", sel]))) ∧
    (∀ (pre : List Schema) (f : Schema) (post : List Schema) (selVal : GoVal),
      mapIndexStr v sel = some selVal →
      (∀ g ∈ pre, ∃ c e, alookup g.checkers sel = some c ∧ coerce c selVal p = Outcome.err e) →
      (∃ c w, alookup f.checkers sel = some c ∧ coerce c selVal p = Outcome.ok w) →
      mapSetCoerce sel (pre ++ f :: post) v p = schemaCoerce f v p) ∧
    (∀ (fmaps : List Schema) (selVal : GoVal),
      mapIndexStr v sel = some selVal →
      (∀ g ∈ fmaps, ∃ c e, alookup g.checkers sel = some c ∧ coerce c selVal p = Outcome.err e) →
      mapSetCoerce sel fmaps v p =
        Outcome.err (Err.expected "supported selector" selVal (p ++ [".", sel]))) := by
  have hred : ∀ (fmaps : List Schema) (selVal : GoVal), mapIndexStr v sel = some selVal →
      mapSetCoerce sel fmaps v p = mapSetLoop sel fmaps selVal v p := by
    intro fmaps selVal hsel
    rcases hv with ⟨es, rfl⟩ | ⟨es, rfl⟩ <;> simp [mapSetCoerce, isMapVal, hsel]
  refine ⟨?_, ?_, ?_⟩
  · intro fmaps hsel
    rcases hv with ⟨es, rfl⟩ | ⟨es, rfl⟩ <;> simp [mapSetCoerce, isMapVal, hsel]
  · intro pre f post selVal hsel hpre hf
    rw [hred _ _ hsel]
    obtain ⟨c, w, hc, hw⟩ := hf
    induction pre with
    | nil => simpa using mapSetLoop_cons_ok post hc hw
    | cons g rest ih =>
      obtain ⟨cg, eg, hcg, heg⟩ := hpre g (List.mem_cons_self g rest)
      rw [List.cons_append, mapSetLoop_cons_err _ hcg heg]
      exact ih (fun g' hg' => hpre g' (List.mem_cons_of_mem g hg'))
  · intro fmaps selVal hsel hall
    rw [hred _ _ hsel]
    exact mapSetLoop_all_err sel fmaps selVal v p hall

/-- Witness for C3 at the spec example: two variants selected by kind;
the input with kind y is dispatched to the second variant, and an
unrecognized kind fails with supported selector. -/
theorem C3_witness :
    mapSetCoerce "kind"
        [Schema.mk [("kind", Checker.constC (GoVal.str "x"))] [] [] false,
         Schema.mk [("kind", Checker.constC (GoVal.str "y"))] [] [] false]
        (GoVal.strMap [("kind", GoVal.str "y")]) [] =
      schemaCoerce (Schema.mk [("kind", Checker.constC (GoVal.str "y"))] [] [] false)
        (GoVal.strMap [("kind", GoVal.str "y")]) [] ∧
    mapSetCoerce "kind"
        [Schema.mk [("kind", Checker.constC (GoVal.str "x"))] [] [] false,
         Schema.mk [("kind", Checker.constC (GoVal.str "y"))] [] [] false]
        (GoVal.strMap [("kind", GoVal.str "z")]) [] =
      Outcome.err (Err.expected "supported selector" (GoVal.str "z") ([] ++ [".", "kind"])) := by
  constructor
  · refine (C3_mapset_dispatch "kind" (GoVal.strMap [("kind", GoVal.str "y")]) []
      (Or.inl ⟨_, rfl⟩)).2.1
      [Schema.mk [("kind", Checker.constC (GoVal.str "x"))] [] [] false]
      (Schema.mk [("kind", Checker.constC (GoVal.str "y"))] [] [] false)
      [] (GoVal.str "y") (by simp [mapIndexStr, alookup]) ?_ ?_
    · intro g hg
      simp at hg
      subst hg
      exact ⟨Checker.constC (GoVal.str "x"),
        Err.expected (goShow (GoVal.str "x")) (GoVal.str "y") [],
        by simp [Schema.checkers, alookup], by simp [coerce]⟩
    · exact ⟨Checker.constC (GoVal.str "y"), GoVal.str "y",
        by simp [Schema.checkers, alookup], by simp [coerce]⟩
  · refine (C3_mapset_dispatch "kind" (GoVal.strMap [("kind", GoVal.str "z")]) []
      (Or.inl ⟨_, rfl⟩)).2.2
      [Schema.mk [("kind", Checker.constC (GoVal.str "x"))] [] [] false,
       Schema.mk [("kind", Checker.constC (GoVal.str "y"))] [] [] false]
      (GoVal.str "z") (by simp [mapIndexStr, alookup]) ?_
    intro g hg
    simp at hg
    rcases hg with hg | hg <;> subst hg
    · exact ⟨Checker.constC (GoVal.str "x"),
        Err.expected (goShow (GoVal.str "x")) (GoVal.str "z") [],
        by simp [Schema.checkers, alookup], by simp [coerce]⟩
    · exact ⟨Checker.constC (GoVal.str "y"),
        Err.expected (goShow (GoVal.str "y")) (GoVal.str "z") [],
        by simp [Schema.checkers, alookup], by simp [coerce]⟩

/-! Helper lemmas about the strict check. -/

theorem strictCheck_none {χ : Type} (cks : List (String × χ)) (p : List String)
    (l : List (String × GoVal)) (h : ∀ kv ∈ l, (alookup cks kv.1).isSome) :
    strictCheck cks p l = none := by
  induction l with
  | nil => simp [strictCheck]
  | cons kv rest ih =>
    obtain ⟨k, val⟩ := kv
    have hk := h (k, val) (List.mem_cons_self _ _)
    simp [strictCheck, hk]
    exact ih (fun kv' hkv' => h kv' (List.mem_cons_of_mem _ hkv'))

theorem strictCheck_first {χ : Type} (cks : List (String × χ)) (p : List String)
    (l : List (String × GoVal)) (h : ∃ kv ∈ l, alookup cks kv.1 = none) :
    ∃ kv ∈ l, alookup cks kv.1 = none ∧
      strictCheck cks p l = some (Err.unknownKey p kv.1 kv.2) := by
  induction l with
  | nil => simp at h
  | cons kv rest ih =>
    obtain ⟨k, val⟩ := kv
    cases hk : alookup cks k with
    | none =>
      exact ⟨(k, val), List.mem_cons_self _ _, hk, by simp [strictCheck, hk]⟩
    | some c =>
      obtain ⟨kv', hmem', hnone'⟩ := h
      have hmem'' : kv' ∈ rest := by
        rcases List.mem_cons.1 hmem' with heq | hmem''
        · subst heq
          simp [hk] at hnone'
        · exact hmem''
      obtain ⟨kv'', hmem2, hnone2, heq2⟩ := ih ⟨kv', hmem'', hnone'⟩
      refine ⟨kv'', List.mem_cons_of_mem _ hmem2, hnone2, ?_⟩
      simpa [strictCheck, hk] using heq2

/-- C5 counterexample: a strict Schema applied to an interface-keyed
map whose single key a is a string with an entry in Checkers.  The
claim requires no unknown-key error when every input key has a Checkers
entry, but the strict loop reads the key through reflect.Value.String()
on the interface-kinded key, obtains the generic type form rather than
the key, and rejects it. -/
theorem C5_counterexample :
    schemaCoerce (Schema.mk [("a", Checker.anyC)] [] [] true)
      (GoVal.ifaceMap [(GoVal.str "a", GoVal.int 1)]) [] =
      Outcome.err (Err.unknownKey [] ifaceKeyString (GoVal.int 1)) := by
  simp [schemaCoerce, isMapVal, hasStrictStringKeys, isStrKeyEntry, strictPairs, strictCheck,
    alookup, ifaceKeyString]

/-- C5 amended: for every strict Schema and every string-keyed map
input (which passes the shape check; interface-keyed inputs are read
through reflect.Value.String() and misbehave, see the counterexample):
if some input key has no Checkers entry, Coerce fails with the
unknown-key error naming such a key and its value, whatever the field
checkers would do (so before any per-field coercion); if every input
key has a Checkers entry, the Strict flag is irrelevant: Coerce behaves
exactly as the non-strict Schema, raising no unknown-key error of its
own. -/
theorem C5_strict_unknown (cks : List (String × Checker)) (dflts : List (String × Dflt))
    (deps : List (String × Dependency)) (es : List (String × GoVal)) (p : List String) :
    ((∃ kv ∈ es, alookup cks kv.1 = none) →
      ∃ kv ∈ es, alookup cks kv.1 = none ∧
        schemaCoerce (Schema.mk cks dflts deps true) (GoVal.strMap es) p =
          Outcome.err (Err.unknownKey p kv.1 kv.2)) ∧
    ((∀ kv ∈ es, (alookup cks kv.1).isSome) →
      schemaCoerce (Schema.mk cks dflts deps true) (GoVal.strMap es) p =
        schemaCoerce (Schema.mk cks dflts deps false) (GoVal.strMap es) p) := by
  constructor
  · intro h
    obtain ⟨kv, hmem, hnone, heq⟩ := strictCheck_first cks p es h
    exact ⟨kv, hmem, hnone, by simp [schemaCoerce, isMapVal, hasStrictStringKeys, strictPairs, heq]⟩
  · intro h
    have hn := strictCheck_none cks p es h
    simp [schemaCoerce, isMapVal, hasStrictStringKeys, strictPairs, hn]

/-- Witness for C5 at the spec example StrictFieldMap: unknown key b is
reported, and a recognized key makes Strict irrelevant. -/
theorem C5_witness :
    schemaCoerce (Schema.mk [("a", Checker.anyC)] [] [] true)
      (GoVal.strMap [("b", GoVal.int 1)]) [] =
      Outcome.err (Err.unknownKey [] "b" (GoVal.int 1)) ∧
    schemaCoerce (Schema.mk [("a", Checker.anyC)] [] [] true)
      (GoVal.strMap [("a", GoVal.int 1)]) [] =
      schemaCoerce (Schema.mk [("a", Checker.anyC)] [] [] false)
      (GoVal.strMap [("a", GoVal.int 1)]) [] := by
  constructor
  · obtain ⟨kv, hmem, hnone, heq⟩ :=
      (C5_strict_unknown [("a", Checker.anyC)] [] [] [("b", GoVal.int 1)] []).1
        ⟨("b", GoVal.int 1), by simp, by simp [alookup]⟩
    simp at hmem
    subst hmem
    exact heq
  · refine (C5_strict_unknown [("a", Checker.anyC)] [] [] [("a", GoVal.int 1)] []).2 ?_
    intro kv hkv
    simp at hkv
    subst hkv
    simp [alookup]

/-- C1: the dependency-resolution pass, run by Schema.Coerce on the
already-coerced output after per-field coercion and defaulting, follows
the four-way rule for a dependency of field F on field D with required
value V: neither present is fine; both present with D deep-equal V is
fine; both present otherwise errors; F present without D errors; F
absent while D carries the required value errors; and F absent while D
carries another value is fine.  The concrete schema with dependency b
depends-on a with value true accepts a true with b 1, rejects a false
with b 1, rejects a lone a true, and accepts the empty map. -/
theorem C1_dependency_four_way :
    (∀ (F D : String) (V : GoVal) (out : List (String × GoVal)),
      alookup out F = none → alookup out D = none →
      resolveDeps [(F, Dependency.mk D V)] out = none) ∧
    (∀ (F D : String) (V : GoVal) (out : List (String × GoVal)) (w a : GoVal),
      alookup out F = some w → alookup out D = some a → a = V →
      resolveDeps [(F, Dependency.mk D V)] out = none) ∧
    (∀ (F D : String) (V : GoVal) (out : List (String × GoVal)) (w a : GoVal),
      alookup out F = some w → alookup out D = some a → ¬a = V →
      resolveDeps [(F, Dependency.mk D V)] out = some (Err.depNotEqual F D a V)) ∧
    (∀ (F D : String) (V : GoVal) (out : List (String × GoVal)) (w : GoVal),
      alookup out F = some w → alookup out D = none →
      resolveDeps [(F, Dependency.mk D V)] out = some (Err.depNotSpecified F V D)) ∧
    (∀ (F D : String) (V : GoVal) (out : List (String × GoVal)) (a : GoVal),
      alookup out F = none → alookup out D = some a → a = V →
      resolveDeps [(F, Dependency.mk D V)] out = some (Err.depFieldMissing D a F)) ∧
    (∀ (F D : String) (V : GoVal) (out : List (String × GoVal)) (a : GoVal),
      alookup out F = none → alookup out D = some a → ¬a = V →
      resolveDeps [(F, Dependency.mk D V)] out = none) ∧
    (schemaCoerce (Schema.mk [("a", Checker.anyC), ("b", Checker.anyC)] []
        [("b", Dependency.mk "a" (GoVal.bool true))] false)
      (GoVal.strMap [("a", GoVal.bool true), ("b", GoVal.int 1)]) [] =
      Outcome.ok (GoVal.strMap [("a", GoVal.bool true), ("b", GoVal.int 1)])) ∧
    (schemaCoerce (Schema.mk [("a", Checker.anyC), ("b", Checker.anyC)] []
        [("b", Dependency.mk "a" (GoVal.bool true))] false)
      (GoVal.strMap [("a", GoVal.bool false), ("b", GoVal.int 1)]) [] =
      Outcome.err (Err.depNotEqual "b" "a" (GoVal.bool false) (GoVal.bool true))) ∧
    (schemaCoerce (Schema.mk [("a", Checker.anyC), ("b", Checker.anyC)] []
        [("b", Dependency.mk "a" (GoVal.bool true))] false)
      (GoVal.strMap [("a", GoVal.bool true)]) [] =
      Outcome.err (Err.depFieldMissing "a" (GoVal.bool true) "b")) ∧
    (schemaCoerce (Schema.mk [("a", Checker.anyC), ("b", Checker.anyC)] []
        [("b", Dependency.mk "a" (GoVal.bool true))] false)
      (GoVal.strMap []) [] =
      Outcome.ok (GoVal.strMap [("a", GoVal.nil)])) := by
  refine ⟨?_, ?_, ?_, ?_, ?_, ?_, ?_, ?_, ?_, ?_⟩
  · intro F D V out hF hD
    simp [resolveDeps, hF, hD]
  · intro F D V out w a hF hD hEq
    subst hEq
    simp [resolveDeps, hF, hD]
  · intro F D V out w a hF hD hNe
    simp [resolveDeps, hF, hD, hNe]
  · intro F D V out w hF hD
    simp [resolveDeps, hF, hD]
  · intro F D V out a hF hD hEq
    subst hEq
    simp [resolveDeps, hF, hD]
  · intro F D V out a hF hD hNe
    simp [resolveDeps, hF, hD, hNe]
  all_goals
    simp [schemaCoerce, fieldsLoop, defaultsLoop, resolveDeps, coerce, mapIndexStr, alookup,
      isMapVal, hasStrictStringKeys, strictPairs, strictCheck]

/-- Witness for C1, applying the four-way rule at concrete outputs. -/
theorem C1_witness :
    resolveDeps [("b", Dependency.mk "a" (GoVal.bool true))] [] = none ∧
    resolveDeps [("b", Dependency.mk "a" (GoVal.bool true))]
      [("a", GoVal.bool false), ("b", GoVal.int 1)] =
      some (Err.depNotEqual "b" "a" (GoVal.bool false) (GoVal.bool true)) ∧
    resolveDeps [("b", Dependency.mk "a" (GoVal.bool true))]
      [("a", GoVal.bool true)] =
      some (Err.depFieldMissing "a" (GoVal.bool true) "b") := by
  refine ⟨?_, ?_, ?_⟩
  · exact C1_dependency_four_way.1 "b" "a" (GoVal.bool true) [] (by simp [alookup]) (by simp [alookup])
  · exact C1_dependency_four_way.2.2.1 "b" "a" (GoVal.bool true) _ (GoVal.int 1) (GoVal.bool false)
      (by simp [alookup]) (by simp [alookup]) (by simp)
  · exact C1_dependency_four_way.2.2.2.2.1 "b" "a" (GoVal.bool true) _ (GoVal.bool true)
      (by simp [alookup]) (by simp [alookup]) rfl

/-! Helper lemmas about the per-field loop of Schema.Coerce. -/

theorem alookup_sandwich {α : Type} (acc : List (String × α)) (n : String) (a : α)
    (tail : List (String × α)) :
    (alookup ((acc ++ [(n, a)]) ++ tail) n).isSome = true := by
  rw [alookup_append]
  cases h1 : alookup (acc ++ [(n, a)]) n with
  | some b => simp
  | none =>
    exfalso
    rw [alookup_append] at h1
    cases h2 : alookup acc n <;> simp [h2, alookup] at h1

theorem fieldsLoop_cons_present {name : String} {ch : Checker} {v x newv : GoVal}
    {p : List String} (rest : List (String × Checker)) (dflts : List (String × Dflt))
    (deps : List (String × Dependency)) (acc : List (String × GoVal))
    (hval : mapIndexStr v name = some x)
    (hc : coerce ch x (p ++ [".", name]) = Outcome.ok newv) :
    fieldsLoop ((name, ch) :: rest) dflts deps v p acc =
      fieldsLoop rest dflts deps v p (acc ++ [(name, newv)]) := by
  simp [fieldsLoop, hval, hc]

theorem fieldsLoop_cons_omit {name : String} {ch : Checker} {v : GoVal} {p : List String}
    (rest : List (String × Checker)) {dflts : List (String × Dflt)}
    (deps : List (String × Dependency)) (acc : List (String × GoVal))
    (hval : mapIndexStr v name = none)
    (hdf : alookup dflts name = some Dflt.omit) :
    fieldsLoop ((name, ch) :: rest) dflts deps v p acc =
      fieldsLoop rest dflts deps v p acc := by
  simp [fieldsLoop, hval, hdf]

theorem fieldsLoop_cons_dflt {name : String} {ch : Checker} {v d newv : GoVal}
    {p : List String} (rest : List (String × Checker)) {dflts : List (String × Dflt)}
    (deps : List (String × Dependency)) (acc : List (String × GoVal))
    (hval : mapIndexStr v name = none)
    (hdf : alookup dflts name = some (Dflt.value d))
    (hc : coerce ch d (p ++ [".", name]) = Outcome.ok newv) :
    fieldsLoop ((name, ch) :: rest) dflts deps v p acc =
      fieldsLoop rest dflts deps v p (acc ++ [(name, newv)]) := by
  simp [fieldsLoop, hval, hdf, hc]

theorem fieldsLoop_cons_dep {name : String} {ch : Checker} {v : GoVal} {p : List String}
    (rest : List (String × Checker)) {dflts : List (String × Dflt)}
    {deps : List (String × Dependency)} (acc : List (String × GoVal))
    (hval : mapIndexStr v name = none)
    (hdf : alookup dflts name = none)
    (hdep : (alookup deps name).isSome = true) :
    fieldsLoop ((name, ch) :: rest) dflts deps v p acc =
      fieldsLoop rest dflts deps v p acc := by
  simp [fieldsLoop, hval, hdf, hdep]

/-- Inversion of one step of the per-field loop on a successful run:
either the head field was coerced (from the input value, from its
default, or from nil on the fall-through of the Go switch) and appended
to the accumulator, or it was skipped (Omit default, or no default with
a dependency). -/
theorem fieldsLoop_cons_inv {name : String} {ch : Checker}
    {rest : List (String × Checker)} {dflts : List (String × Dflt)}
    {deps : List (String × Dependency)} {v : GoVal} {p : List String}
    {acc out : List (String × GoVal)}
    (h : fieldsLoop ((name, ch) :: rest) dflts deps v p acc = Outcome.ok out) :
    (∃ newv x, coerce ch x (p ++ [".", name]) = Outcome.ok newv ∧
      fieldsLoop rest dflts deps v p (acc ++ [(name, newv)]) = Outcome.ok out ∧
      (mapIndexStr v name = some x ∨
       (mapIndexStr v name = none ∧ alookup dflts name = some (Dflt.value x)) ∨
       (mapIndexStr v name = none ∧ alookup dflts name = none ∧
         (alookup deps name).isSome = false ∧ x = GoVal.nil))) ∨
    (fieldsLoop rest dflts deps v p acc = Outcome.ok out ∧ mapIndexStr v name = none ∧
      (alookup dflts name = some Dflt.omit ∨
       (alookup dflts name = none ∧ (alookup deps name).isSome = true))) := by
  cases hval : mapIndexStr v name with
  | some x =>
    simp only [fieldsLoop, hval] at h
    cases hc : coerce ch x (p ++ [".", name]) with
    | ok newv =>
      rw [hc] at h
      exact Or.inl ⟨newv, x, hc, h, Or.inl rfl⟩
    | err e => rw [hc] at h; cases h
    | panics m => rw [hc] at h; cases h
  | none =>
    cases hdf : alookup dflts name with
    | some dval =>
      cases dval
      · simp only [fieldsLoop, hval, hdf] at h
        exact Or.inr ⟨h, rfl, Or.inl rfl⟩
      · next d =>
        simp only [fieldsLoop, hval, hdf] at h
        cases hc : coerce ch d (p ++ [".", name]) with
        | ok newv =>
          rw [hc] at h
          exact Or.inl ⟨newv, d, hc, h, Or.inr (Or.inl ⟨rfl, rfl⟩)⟩
        | err e => rw [hc] at h; cases h
        | panics m => rw [hc] at h; cases h
    | none =>
      cases hdep : (alookup deps name).isSome with
      | true =>
        simp only [fieldsLoop, hval, hdf, hdep] at h
        exact Or.inr ⟨h, rfl, Or.inr ⟨rfl, rfl⟩⟩
      | false =>
        simp only [fieldsLoop, hval, hdf, hdep] at h
        cases hc : coerce ch GoVal.nil (p ++ [".", name]) with
        | ok newv =>
          rw [hc] at h
          exact Or.inl ⟨newv, GoVal.nil, hc, h, Or.inr (Or.inr ⟨rfl, rfl, rfl, rfl⟩)⟩
        | err e => rw [hc] at h; cases h
        | panics m => rw [hc] at h; cases h

/-- A successful per-field loop only appends: the result extends the
accumulator with entries named after Checkers entries. -/
theorem fieldsLoop_acc :
    ∀ (cks : List (String × Checker)) (dflts : List (String × Dflt))
      (deps : List (String × Dependency)) (v : GoVal) (p : List String)
      (acc out : List (String × GoVal)),
      fieldsLoop cks dflts deps v p acc = Outcome.ok out →
      ∃ tail, out = acc ++ tail ∧ ∀ kv ∈ tail, kv.1 ∈ cks.map Prod.fst := by
  intro cks
  induction cks with
  | nil =>
    intro dflts deps v p acc out h
    simp only [fieldsLoop] at h
    cases h
    exact ⟨[], by simp⟩
  | cons hd rest ih =>
    obtain ⟨name, ch⟩ := hd
    intro dflts deps v p acc out h
    rcases fieldsLoop_cons_inv h with ⟨newv, x, _, hrest, _⟩ | ⟨hrest, _, _⟩
    · obtain ⟨tail, htl, hnames⟩ := ih dflts deps v p _ out hrest
      refine ⟨(name, newv) :: tail, by simpa using htl, ?_⟩
      intro kv hkv
      rcases List.mem_cons.1 hkv with heq | hmem
      · subst heq
        simp
      · simp [hnames kv hmem]
    · obtain ⟨tail, htl, hnames⟩ := ih dflts deps v p _ out hrest
      exact ⟨tail, htl, fun kv hkv => by simp [hnames kv hkv]⟩

/-- Any Checkers entry whose field carries a non-Omit default lands in
the output of a successful per-field loop: the field is coerced either
from the input value or from the default, never skipped. -/
theorem fieldsLoop_default_emitted :
    ∀ (cks : List (String × Checker)) (dflts : List (String × Dflt))
      (deps : List (String × Dependency)) (v : GoVal) (p : List String)
      (acc out : List (String × GoVal)) (n : String) (c : Checker) (d : GoVal),
      fieldsLoop cks dflts deps v p acc = Outcome.ok out →
      (n, c) ∈ cks → alookup dflts n = some (Dflt.value d) →
      (alookup out n).isSome = true := by
  intro cks
  induction cks with
  | nil =>
    intro dflts deps v p acc out n c d _ hmem _
    simp at hmem
  | cons hd rest ih =>
    obtain ⟨name, ch⟩ := hd
    intro dflts deps v p acc out n c d h hmem hdf
    rcases List.mem_cons.1 hmem with heq | hmem'
    · have hn : name = n := by cases heq; rfl
      subst hn
      rcases fieldsLoop_cons_inv h with ⟨newv, x, _, hrest, _⟩ | ⟨_, _, hskip⟩
      · obtain ⟨tail, htl, _⟩ := fieldsLoop_acc rest dflts deps v p _ out hrest
        rw [htl]
        exact alookup_sandwich acc name newv tail
      · rcases hskip with homit | ⟨hnone, _⟩
        · rw [hdf] at homit
          simp at homit
        · rw [hdf] at hnone
          simp at hnone
    · rcases fieldsLoop_cons_inv h with ⟨newv, x, _, hrest, _⟩ | ⟨hrest, _, _⟩
      · exact ih dflts deps v p _ out n c d hrest hmem' hdf
      · exact ih dflts deps v p _ out n c d hrest hmem' hdf

/-! Helper lemmas about the defaults backfill loop. -/

/-- On a successful run whose starting output already contains every
field that has a non-Omit default and a Checkers entry, the backfill
loop adds nothing; moreover every non-Omit defaulted field is then in
the output.  The no-duplicate hypothesis reflects that Defaults is a Go
map. -/
theorem defaultsLoop_ok_of_fields :
    ∀ (dflts : List (String × Dflt)) (cks : List (String × Checker)) (v : GoVal)
      (p : List String) (out out2 : List (String × GoVal)),
      nodupKeys dflts →
      (∀ n d, (n, Dflt.value d) ∈ dflts → (alookup cks n).isSome = true →
        (alookup out n).isSome = true) →
      defaultsLoop dflts cks v p out = Outcome.ok out2 →
      out2 = out ∧ ∀ n d, (n, Dflt.value d) ∈ dflts → (alookup out n).isSome = true := by
  intro dflts
  induction dflts with
  | nil =>
    intro cks v p out out2 _ _ h
    simp only [defaultsLoop] at h
    cases h
    exact ⟨rfl, by simp⟩
  | cons hd rest ih =>
    obtain ⟨n0, val⟩ := hd
    intro cks v p out out2 hnd hcov h
    have hnd' : nodupKeys rest := by
      rw [nodupKeys, List.map_cons, List.nodup_cons] at hnd
      exact hnd.2
    cases val
    · simp only [defaultsLoop] at h
      obtain ⟨he, hall⟩ := ih cks v p out out2 hnd'
        (fun n d hm hs => hcov n d (List.mem_cons_of_mem _ hm) hs) h
      refine ⟨he, ?_⟩
      intro n d hm
      rcases List.mem_cons.1 hm with heq | hm'
      · simp at heq
      · exact hall n d hm'
    · next d0 =>
      simp only [defaultsLoop] at h
      cases hout : (alookup out n0).isSome with
      | true =>
        rw [if_pos hout] at h
        obtain ⟨he, hall⟩ := ih cks v p out out2 hnd'
          (fun n d hm hs => hcov n d (List.mem_cons_of_mem _ hm) hs) h
        refine ⟨he, ?_⟩
        intro n d hm
        rcases List.mem_cons.1 hm with heq | hm'
        · have : n = n0 := by cases heq; rfl
          subst this
          exact hout
        · exact hall n d hm'
      | false =>
        rw [if_neg (by simp [hout])] at h
        by_cases hcks : (alookup cks n0).isSome = true
        · have hcontra := hcov n0 d0 (List.mem_cons_self _ _) hcks
          rw [hout] at hcontra
          cases hcontra
        · rw [dif_neg hcks] at h
          cases h

/-- When every non-Omit defaulted field is already present in the
output, both the real backfill loop and the checker-free variant leave
the output untouched. -/
theorem defaultsLoop_skip_all :
    ∀ (dflts : List (String × Dflt)) (cks : List (String × Checker)) (v : GoVal)
      (p : List String) (out : List (String × GoVal)),
      (∀ n d, (n, Dflt.value d) ∈ dflts → (alookup out n).isSome = true) →
      defaultsLoop dflts cks v p out = Outcome.ok out ∧
      defaultsLoopAlt dflts cks out = Outcome.ok out := by
  intro dflts
  induction dflts with
  | nil =>
    intro cks v p out _
    constructor <;> simp [defaultsLoop, defaultsLoopAlt]
  | cons hd rest ih =>
    obtain ⟨n0, val⟩ := hd
    intro cks v p out h
    cases val
    · simp only [defaultsLoop, defaultsLoopAlt]
      exact ih cks v p out (fun n d hm => h n d (List.mem_cons_of_mem _ hm))
    · next d0 =>
      have hout := h n0 d0 (List.mem_cons_self _ _)
      simp only [defaultsLoop, defaultsLoopAlt, hout, if_pos rfl]
      exact ih cks v p out (fun n d hm => h n d (List.mem_cons_of_mem _ hm))

/-- Inversion of a successful Schema.Coerce into its phases: shape
check, optional strict check, per-field loop, backfill, dependency
resolution. -/
theorem schemaCoerce_ok_inv (cks : List (String × Checker)) (dflts : List (String × Dflt))
    (deps : List (String × Dependency)) (st : Bool) (v : GoVal) (p : List String) (w : GoVal)
    (h : schemaCoerce (Schema.mk cks dflts deps st) v p = Outcome.ok w) :
    isMapVal v = true ∧ hasStrictStringKeys v = true ∧
    (st = true → strictCheck cks p (strictPairs v) = none) ∧
    ∃ out1 out2, fieldsLoop cks dflts deps v p [] = Outcome.ok out1 ∧
      defaultsLoop dflts cks v p out1 = Outcome.ok out2 ∧
      resolveDeps deps out2 = none ∧ w = GoVal.strMap out2 := by
  simp only [schemaCoerce] at h
  split at h
  · cases h
  · split at h
    · cases h
    · next h1 h2 =>
      split at h
      · cases h
      · next hstrict =>
        split at h
        · cases h
        · cases h
        · next out1 hf =>
          split at h
          · cases h
          · cases h
          · next out2 hd =>
            split at h
            · cases h
            · next hr =>
              cases h
              refine ⟨by simpa using h1, by simpa using h2, ?_, out1, out2, hf, hd, hr, rfl⟩
              intro hst
              rw [hst] at hstrict
              simpa using hstrict

theorem alookup_mid {α : Type} (acc : List (String × α)) (F : String) (w : α)
    (tail : List (String × α)) (h : F ∉ acc.map Prod.fst) :
    alookup ((acc ++ [(F, w)]) ++ tail) F = some w := by
  rw [alookup_append, alookup_append, (alookup_eq_none acc F).2 h]
  simp [alookup]

/-- A field absent from the input with a non-Omit default is coerced
from the default at the same path a present value would use, and the
result is what a lookup of the field in the loop output returns. -/
theorem fieldsLoop_default_value_out :
    ∀ (cks : List (String × Checker)) (dflts : List (String × Dflt))
      (deps : List (String × Dependency)) (v : GoVal) (p : List String)
      (acc out : List (String × GoVal)) (F : String) (c : Checker) (d : GoVal),
      F ∉ acc.map Prod.fst →
      alookup cks F = some c →
      mapIndexStr v F = none →
      alookup dflts F = some (Dflt.value d) →
      fieldsLoop cks dflts deps v p acc = Outcome.ok out →
      ∃ w, coerce c d (p ++ [".", F]) = Outcome.ok w ∧ alookup out F = some w := by
  intro cks
  induction cks with
  | nil =>
    intro dflts deps v p acc out F c d _ hcF _ _ _
    simp [alookup] at hcF
  | cons hd rest ih =>
    obtain ⟨name, ch⟩ := hd
    intro dflts deps v p acc out F c d hFacc hcF hval hdf h
    by_cases hn : name = F
    · subst hn
      have hc_eq : ch = c := by
        rw [alookup] at hcF
        simpa using hcF
      subst hc_eq
      rcases fieldsLoop_cons_inv h with ⟨newv, x, hco, hrest, hsrc⟩ | ⟨_, _, hskip⟩
      · rcases hsrc with hsome | ⟨_, hdfx⟩ | ⟨_, hdfn, _, _⟩
        · rw [hval] at hsome
          cases hsome
        · rw [hdf] at hdfx
          have hxd : d = x := by simpa using hdfx
          subst hxd
          obtain ⟨tail, htl, _⟩ := fieldsLoop_acc rest dflts deps v p _ out hrest
          rw [htl]
          exact ⟨newv, hco, alookup_mid acc name newv tail hFacc⟩
        · rw [hdf] at hdfn
          cases hdfn
      · rcases hskip with homit | ⟨hnone, _⟩
        · rw [hdf] at homit
          simp at homit
        · rw [hdf] at hnone
          cases hnone
    · have hcF' : alookup rest F = some c := by
        rw [alookup, if_neg hn] at hcF
        exact hcF
      rcases fieldsLoop_cons_inv h with ⟨newv, x, _, hrest, _⟩ | ⟨hrest, _, _⟩
      · have hFacc' : F ∉ (acc ++ [(name, newv)]).map Prod.fst := by
          simp only [List.map_append, List.mem_append]
          rintro (hmem | hmem)
          · exact hFacc hmem
          · simp at hmem
            exact hn hmem.symm
        exact ih dflts deps v p _ out F c d hFacc' hcF' hval hdf hrest
      · exact ih dflts deps v p _ out F c d hFacc hcF' hval hdf hrest

/-- A field absent from the input whose default is the Omit sentinel is
never placed in the loop output. -/
theorem fieldsLoop_omit_out :
    ∀ (cks : List (String × Checker)) (dflts : List (String × Dflt))
      (deps : List (String × Dependency)) (v : GoVal) (p : List String)
      (acc out : List (String × GoVal)) (F : String),
      F ∉ acc.map Prod.fst →
      mapIndexStr v F = none →
      alookup dflts F = some Dflt.omit →
      fieldsLoop cks dflts deps v p acc = Outcome.ok out →
      alookup out F = none := by
  intro cks
  induction cks with
  | nil =>
    intro dflts deps v p acc out F hFacc _ _ h
    simp only [fieldsLoop] at h
    cases h
    exact (alookup_eq_none acc F).2 hFacc
  | cons hd rest ih =>
    obtain ⟨name, ch⟩ := hd
    intro dflts deps v p acc out F hFacc hval hdf h
    by_cases hn : name = F
    · subst hn
      rcases fieldsLoop_cons_inv h with ⟨newv, x, _, _, hsrc⟩ | ⟨hrest, _, hskip⟩
      · rcases hsrc with hsome | ⟨_, hdfx⟩ | ⟨_, hdfn, _, _⟩
        · rw [hval] at hsome
          cases hsome
        · rw [hdf] at hdfx
          simp at hdfx
        · rw [hdf] at hdfn
          cases hdfn
      · exact ih dflts deps v p acc out name hFacc hval hdf hrest
    · rcases fieldsLoop_cons_inv h with ⟨newv, x, _, hrest, _⟩ | ⟨hrest, _, _⟩
      · have hFacc' : F ∉ (acc ++ [(name, newv)]).map Prod.fst := by
          simp only [List.map_append, List.mem_append]
          rintro (hmem | hmem)
          · exact hFacc hmem
          · simp at hmem
            exact hn hmem.symm
        exact ih dflts deps v p _ out F hFacc' hval hdf hrest
      · exact ih dflts deps v p acc out F hFacc hval hdf hrest

/-- If the checker of an absent field rejects the field's non-Omit
default, the per-field loop cannot succeed. -/
theorem fieldsLoop_default_err :
    ∀ (cks : List (String × Checker)) (dflts : List (String × Dflt))
      (deps : List (String × Dependency)) (v : GoVal) (p : List String)
      (acc out : List (String × GoVal)) (F : String) (c : Checker) (d : GoVal) (e : Err),
      alookup cks F = some c →
      mapIndexStr v F = none →
      alookup dflts F = some (Dflt.value d) →
      coerce c d (p ++ [".", F]) = Outcome.err e →
      fieldsLoop cks dflts deps v p acc ≠ Outcome.ok out := by
  intro cks
  induction cks with
  | nil =>
    intro dflts deps v p acc out F c d e hcF _ _ _ _
    simp [alookup] at hcF
  | cons hd rest ih =>
    obtain ⟨name, ch⟩ := hd
    intro dflts deps v p acc out F c d e hcF hval hdf herr h
    by_cases hn : name = F
    · subst hn
      have hc_eq : ch = c := by
        rw [alookup] at hcF
        simpa using hcF
      subst hc_eq
      rcases fieldsLoop_cons_inv h with ⟨newv, x, hco, _, hsrc⟩ | ⟨_, _, hskip⟩
      · rcases hsrc with hsome | ⟨_, hdfx⟩ | ⟨_, hdfn, _, _⟩
        · rw [hval] at hsome
          cases hsome
        · rw [hdf] at hdfx
          have hxd : d = x := by simpa using hdfx
          subst hxd
          rw [herr] at hco
          cases hco
        · rw [hdf] at hdfn
          cases hdfn
      · rcases hskip with homit | ⟨hnone, _⟩
        · rw [hdf] at homit
          simp at homit
        · rw [hdf] at hnone
          cases hnone
    · have hcF' : alookup rest F = some c := by
        rw [alookup, if_neg hn] at hcF
        exact hcF
      rcases fieldsLoop_cons_inv h with ⟨newv, x, _, hrest, _⟩ | ⟨hrest, _, _⟩
      · exact ih dflts deps v p _ out F c d e hcF' hval hdf herr hrest
      · exact ih dflts deps v p acc out F c d e hcF' hval hdf herr hrest

/-- C2: for a field F with a Checkers entry and absent from the
string-keyed input map, an Omit default leaves F out of the output of a
successful Coerce; a non-Omit default d is passed through F's checker
at the same path a present value would use, with the coerced result
appearing in the output under F, and if the checker rejects d the whole
Coerce cannot succeed.  The duplicate-free hypothesis on Defaults
reflects that it is a Go map. -/
theorem C2_defaults (cks : List (String × Checker)) (dflts : List (String × Dflt))
    (deps : List (String × Dependency)) (st : Bool) (es : List (String × GoVal))
    (p : List String) (F : String) (c : Checker)
    (hnd : nodupKeys dflts)
    (hcF : alookup cks F = some c)
    (habs : alookup es F = none) :
    (alookup dflts F = some Dflt.omit →
      ∀ out, schemaCoerce (Schema.mk cks dflts deps st) (GoVal.strMap es) p =
          Outcome.ok (GoVal.strMap out) →
        alookup out F = none) ∧
    (∀ d, alookup dflts F = some (Dflt.value d) →
      (∀ out, schemaCoerce (Schema.mk cks dflts deps st) (GoVal.strMap es) p =
          Outcome.ok (GoVal.strMap out) →
        ∃ w, coerce c d (p ++ [".", F]) = Outcome.ok w ∧ alookup out F = some w) ∧
      (∀ e, coerce c d (p ++ [".", F]) = Outcome.err e →
        ∀ w, schemaCoerce (Schema.mk cks dflts deps st) (GoVal.strMap es) p ≠
          Outcome.ok w)) := by
  have hBgen : ∀ out1, fieldsLoop cks dflts deps (GoVal.strMap es) p [] = Outcome.ok out1 →
      ∀ n d, (n, Dflt.value d) ∈ dflts → (alookup cks n).isSome = true →
        (alookup out1 n).isSome = true := by
    intro out1 hfl n d hm hs
    obtain ⟨c', hc'⟩ := Option.isSome_iff_exists.1 hs
    exact fieldsLoop_default_emitted cks dflts deps (GoVal.strMap es) p [] out1 n c' d hfl
      (alookup_mem hc') (mem_alookup_nodup hnd hm)
  constructor
  · intro hdf out h
    obtain ⟨_, _, _, out1, out2, hfl, hdl, _, hw⟩ :=
      schemaCoerce_ok_inv cks dflts deps st (GoVal.strMap es) p (GoVal.strMap out) h
    have hout : out = out2 := by
      simpa using hw
    obtain ⟨he2, _⟩ := defaultsLoop_ok_of_fields dflts cks (GoVal.strMap es) p out1 out2 hnd
      (hBgen out1 hfl) hdl
    subst hout
    rw [he2]
    exact fieldsLoop_omit_out cks dflts deps (GoVal.strMap es) p [] out1 F (by simp)
      (by simpa [mapIndexStr] using habs) hdf hfl
  · intro d hdf
    constructor
    · intro out h
      obtain ⟨_, _, _, out1, out2, hfl, hdl, _, hw⟩ :=
        schemaCoerce_ok_inv cks dflts deps st (GoVal.strMap es) p (GoVal.strMap out) h
      have hout : out = out2 := by
        simpa using hw
      obtain ⟨he2, _⟩ := defaultsLoop_ok_of_fields dflts cks (GoVal.strMap es) p out1 out2 hnd
        (hBgen out1 hfl) hdl
      subst hout
      rw [he2]
      exact fieldsLoop_default_value_out cks dflts deps (GoVal.strMap es) p [] out1 F c d
        (by simp) hcF (by simpa [mapIndexStr] using habs) hdf hfl
    · intro e he w h
      obtain ⟨_, _, _, out1, out2, hfl, _, _, _⟩ :=
        schemaCoerce_ok_inv cks dflts deps st (GoVal.strMap es) p w h
      exact fieldsLoop_default_err cks dflts deps (GoVal.strMap es) p [] out1 F c d e hcF
        (by simpa [mapIndexStr] using habs) hdf he hfl

/-- Witness for C2 at the spec examples: default 5 through an exact-5
checker lands in the output of input the empty map, and an Omit default
leaves the output without the key. -/
theorem C2_witness :
    schemaCoerce (Schema.mk [("a", Checker.constC (GoVal.int 5))]
        [("a", Dflt.value (GoVal.int 5))] [] false) (GoVal.strMap []) [] =
      Outcome.ok (GoVal.strMap [("a", GoVal.int 5)]) ∧
    (∃ w, coerce (Checker.constC (GoVal.int 5)) (GoVal.int 5) ([] ++ [".", "a"]) =
        Outcome.ok w ∧ alookup [("a", GoVal.int 5)] "a" = some w) ∧
    schemaCoerce (Schema.mk [("a", Checker.anyC)] [("a", Dflt.omit)] [] false)
      (GoVal.strMap []) [] = Outcome.ok (GoVal.strMap []) ∧
    alookup ([] : List (String × GoVal)) "a" = none := by
  have h1 : schemaCoerce (Schema.mk [("a", Checker.constC (GoVal.int 5))]
      [("a", Dflt.value (GoVal.int 5))] [] false) (GoVal.strMap []) [] =
      Outcome.ok (GoVal.strMap [("a", GoVal.int 5)]) := by
    simp [schemaCoerce, fieldsLoop, defaultsLoop, resolveDeps, coerce, mapIndexStr, alookup,
      isMapVal, hasStrictStringKeys, strictPairs, strictCheck]
  have h2 : schemaCoerce (Schema.mk [("a", Checker.anyC)] [("a", Dflt.omit)] [] false)
      (GoVal.strMap []) [] = Outcome.ok (GoVal.strMap []) := by
    simp [schemaCoerce, fieldsLoop, defaultsLoop, resolveDeps, coerce, mapIndexStr, alookup,
      isMapVal, hasStrictStringKeys, strictPairs, strictCheck]
  refine ⟨h1, ?_, h2, ?_⟩
  · exact ((C2_defaults [("a", Checker.constC (GoVal.int 5))] [("a", Dflt.value (GoVal.int 5))]
      [] false [] [] "a" (Checker.constC (GoVal.int 5)) (by simp [nodupKeys])
      (by simp [alookup]) (by simp [alookup])).2 (GoVal.int 5) (by simp [alookup])).1
      [("a", GoVal.int 5)] h1
  · exact (C2_defaults [("a", Checker.anyC)] [("a", Dflt.omit)] [] false [] [] "a"
      Checker.anyC (by simp [nodupKeys]) (by simp [alookup]) (by simp [alookup])).1
      (by simp [alookup]) [] h2

/-- C9: for a Schema whose Defaults keys (a Go map, hence
duplicate-free) all have entries in Checkers, every non-Omit defaulted
field is already placed in the output by the per-field loop, so the
backfill pass never invokes a checker on the whole input map and
Schema.Coerce is observationally equal to the variant whose backfill
only raises the unknown-field error. -/
theorem C9_backfill_equiv (cks : List (String × Checker)) (dflts : List (String × Dflt))
    (deps : List (String × Dependency)) (st : Bool) (v : GoVal) (p : List String)
    (hnd : nodupKeys dflts)
    (hcov : ∀ kv ∈ dflts, (alookup cks kv.1).isSome = true) :
    schemaCoerce (Schema.mk cks dflts deps st) v p =
      schemaCoerceAlt (Schema.mk cks dflts deps st) v p := by
  by_cases h1 : isMapVal v = false
  · simp [schemaCoerce, schemaCoerceAlt, h1]
  by_cases h2 : hasStrictStringKeys v = false
  · simp [schemaCoerce, schemaCoerceAlt, h1, h2]
  cases hsc : (if st then strictCheck cks p (strictPairs v) else none) with
  | some e => simp [schemaCoerce, schemaCoerceAlt, h1, h2, hsc]
  | none =>
    cases hfl : fieldsLoop cks dflts deps v p [] with
    | err e => simp [schemaCoerce, schemaCoerceAlt, h1, h2, hsc, hfl]
    | panics m => simp [schemaCoerce, schemaCoerceAlt, h1, h2, hsc, hfl]
    | ok out1 =>
      have hB : ∀ n d, (n, Dflt.value d) ∈ dflts → (alookup out1 n).isSome = true := by
        intro n d hm
        obtain ⟨c', hc'⟩ := Option.isSome_iff_exists.1 (hcov (n, Dflt.value d) hm)
        exact fieldsLoop_default_emitted cks dflts deps v p [] out1 n c' d hfl
          (alookup_mem hc') (mem_alookup_nodup hnd hm)
      obtain ⟨hreal, halt⟩ := defaultsLoop_skip_all dflts cks v p out1 hB
      simp [schemaCoerce, schemaCoerceAlt, h1, h2, hsc, hfl, hreal, halt]

/-- Witness for C9 at a concrete schema with a covered default. -/
theorem C9_witness :
    schemaCoerce (Schema.mk [("a", Checker.anyC)] [("a", Dflt.value (GoVal.int 5))] [] false)
      (GoVal.strMap []) [] =
    schemaCoerceAlt (Schema.mk [("a", Checker.anyC)] [("a", Dflt.value (GoVal.int 5))] [] false)
      (GoVal.strMap []) [] := by
  apply C9_backfill_equiv
  · simp [nodupKeys]
  · intro kv hkv
    simp at hkv
    subst hkv
    simp [alookup]

/-- C7 counterexample: re-coercing an already-coerced output is not a
fixed point in general.  With OneOf: the first alternative (FieldMap
with a Const 7 checker and default 7 for d) rejects the input d 5, the
second (FieldMap with no checkers) accepts it with output the empty
map, but re-coercing the empty map is accepted by the first alternative
which injects the default, giving a different output.  FieldMapSet
behaves the same way when the coerced selector value moves to an
earlier variant. -/
theorem C7_counterexample :
    (coerce (Checker.oneOfC
        [Checker.schemaC (Schema.mk [("d", Checker.constC (GoVal.int 7))]
            [("d", Dflt.value (GoVal.int 7))] [] false),
         Checker.schemaC (Schema.mk [] [] [] false)])
      (GoVal.strMap [("d", GoVal.int 5)]) [] = Outcome.ok (GoVal.strMap [])) ∧
    (coerce (Checker.oneOfC
        [Checker.schemaC (Schema.mk [("d", Checker.constC (GoVal.int 7))]
            [("d", Dflt.value (GoVal.int 7))] [] false),
         Checker.schemaC (Schema.mk [] [] [] false)])
      (GoVal.strMap []) [] = Outcome.ok (GoVal.strMap [("d", GoVal.int 7)])) ∧
    (Outcome.ok (GoVal.strMap [("d", GoVal.int 7)]) ≠
      (Outcome.ok (GoVal.strMap []) : Outcome GoVal)) ∧
    (mapSetCoerce "k"
        [Schema.mk [("k", Checker.constC (GoVal.strMap [])),
                    ("d", Checker.constC (GoVal.int 7))]
           [("d", Dflt.value (GoVal.int 7))] [] false,
         Schema.mk [("k", Checker.schemaC (Schema.mk [] [] [] false))] [] [] false]
        (GoVal.strMap [("k", GoVal.strMap [("x", GoVal.int 1)])]) [] =
      Outcome.ok (GoVal.strMap [("k", GoVal.strMap [])])) ∧
    (mapSetCoerce "k"
        [Schema.mk [("k", Checker.constC (GoVal.strMap [])),
                    ("d", Checker.constC (GoVal.int 7))]
           [("d", Dflt.value (GoVal.int 7))] [] false,
         Schema.mk [("k", Checker.schemaC (Schema.mk [] [] [] false))] [] [] false]
        (GoVal.strMap [("k", GoVal.strMap [])]) [] =
      Outcome.ok (GoVal.strMap [("k", GoVal.strMap []), ("d", GoVal.int 7)])) := by
  refine ⟨?_, ?_, by simp, ?_, ?_⟩ <;>
    simp [coerce, oneOfLoop, schemaCoerce, fieldsLoop, defaultsLoop, resolveDeps,
      mapSetCoerce, mapSetLoop, Schema.checkers, mapIndexStr, alookup, isMapVal,
      hasStrictStringKeys, strictPairs, strictCheck]

theorem plainL_mem : ∀ (l : List (String × Checker)), plainL l = true →
    ∀ nc ∈ l, plainC nc.2 = true := by
  intro l
  induction l with
  | nil =>
    intro _ nc hm
    simp at hm
  | cons hd tl ih =>
    obtain ⟨nm, c⟩ := hd
    intro hp nc hm
    rw [plainL] at hp
    simp only [Bool.and_eq_true] at hp
    rcases List.mem_cons.1 hm with heq | hm'
    · subst heq
      exact hp.1
    · exact ih hp.2 nc hm'

/-- Re-running the per-field loop on its own successful output (same
schema data, input replaced by the output map) reproduces the output,
provided every field checker fixes its own outputs and the keys of the
accumulator and checker list are jointly duplicate-free. -/
theorem fieldsLoop_rerun :
    ∀ (cks : List (String × Checker)) (dflts : List (String × Dflt))
      (deps : List (String × Dependency)) (v : GoVal) (p : List String)
      (acc out : List (String × GoVal)),
      (∀ nc ∈ cks, ∀ x y, coerce nc.2 x (p ++ [".", nc.1]) = Outcome.ok y →
        coerce nc.2 y (p ++ [".", nc.1]) = Outcome.ok y) →
      (acc.map Prod.fst ++ cks.map Prod.fst).Nodup →
      fieldsLoop cks dflts deps v p acc = Outcome.ok out →
      fieldsLoop cks dflts deps (GoVal.strMap out) p acc = Outcome.ok out := by
  intro cks
  induction cks with
  | nil =>
    intro dflts deps v p acc out _ _ h
    simp only [fieldsLoop] at h ⊢
    exact h
  | cons hd rest ih =>
    obtain ⟨name, ch⟩ := hd
    intro dflts deps v p acc out hih hnd h
    simp only [List.map_cons] at hnd
    obtain ⟨hA, hcr, hdisj⟩ := List.nodup_append.1 hnd
    have hnrest : name ∉ rest.map Prod.fst := (List.nodup_cons.1 hcr).1
    have hnacc : name ∉ acc.map Prod.fst := fun hmem => hdisj hmem (List.mem_cons_self _ _)
    have hihr : ∀ nc ∈ rest, ∀ x y, coerce nc.2 x (p ++ [".", nc.1]) = Outcome.ok y →
        coerce nc.2 y (p ++ [".", nc.1]) = Outcome.ok y :=
      fun nc hm => hih nc (List.mem_cons_of_mem _ hm)
    have hih0 := hih (name, ch) (List.mem_cons_self _ _)
    rcases fieldsLoop_cons_inv h with ⟨newv, x, hco, hrest, _⟩ | ⟨hrest, _, hskip⟩
    · obtain ⟨tail, htl, htailnames⟩ := fieldsLoop_acc rest dflts deps v p _ out hrest
      have hlook : alookup out name = some newv := by
        rw [htl]
        exact alookup_mid acc name newv tail hnacc
      have hcoW : coerce ch newv (p ++ [".", name]) = Outcome.ok newv := hih0 x newv hco
      rw [fieldsLoop_cons_present rest dflts deps acc
        (show mapIndexStr (GoVal.strMap out) name = some newv by
          simpa [mapIndexStr] using hlook) hcoW]
      refine ih dflts deps v p (acc ++ [(name, newv)]) out hihr ?_ hrest
      simpa using hnd
    · have hntail : alookup out name = none := by
        obtain ⟨tail, htl, htailnames⟩ := fieldsLoop_acc rest dflts deps v p acc out hrest
        rw [htl, alookup_eq_none]
        simp only [List.map_append, List.mem_append]
        rintro (hmem | hmem)
        · exact hnacc hmem
        · obtain ⟨kv, hkv, hfst⟩ := List.mem_map.1 hmem
          exact hnrest (hfst ▸ htailnames kv hkv)
      have hnd' : (acc.map Prod.fst ++ rest.map Prod.fst).Nodup := by
        refine List.Nodup.sublist ?_ hnd
        exact List.Sublist.append_left (List.sublist_cons_self _ _) _
      have hvalW : mapIndexStr (GoVal.strMap out) name = none := by
        simpa [mapIndexStr] using hntail
      rcases hskip with homit | ⟨hdfn, hdep⟩
      · rw [fieldsLoop_cons_omit rest deps acc hvalW homit]
        exact ih dflts deps v p acc out hihr hnd' hrest
      · rw [fieldsLoop_cons_dep rest acc hvalW hdfn hdep]
        exact ih dflts deps v p acc out hihr hnd' hrest

theorem idemAux : ∀ (N : Nat) (c : Checker), sizeOf c ≤ N → plainC c = true →
    ∀ v p w, coerce c v p = Outcome.ok w → coerce c w p = Outcome.ok w := by
  intro N
  induction N using Nat.strong_induction_on with
  | _ N ihN =>
    intro c hsz hp v p w h
    cases c with
    | anyC =>
      simp only [coerce] at h
      cases h
      simp [coerce]
    | constC x =>
      simp only [coerce] at h ⊢
      split at h
      · next heq =>
        cases h
        rw [if_pos heq]
      · cases h
    | emptyC lbl =>
      simp only [coerce] at h ⊢
      split at h
      · next heq =>
        cases h
        rw [if_pos heq]
      · cases h
    | oneOfC opts => simp [plainC] at hp
    | mapSetC sel fmaps => simp [plainC] at hp
    | schemaC s =>
      cases s with
      | mk cks dflts deps st =>
        have hp' : plainS (Schema.mk cks dflts deps st) = true := by
          simpa [plainC] using hp
        rw [plainS] at hp'
        simp only [Bool.and_eq_true, decide_eq_true_eq] at hp'
        obtain ⟨⟨hndc, hndd⟩, hpl⟩ := hp'
        simp only [coerce] at h ⊢
        obtain ⟨hmap, hstr, hstrict, out1, out2, hfl, hdl, hrd, hw⟩ :=
          schemaCoerce_ok_inv cks dflts deps st v p w h
        have hB : ∀ n d, (n, Dflt.value d) ∈ dflts → (alookup cks n).isSome = true →
            (alookup out1 n).isSome = true := by
          intro n d hm hs
          obtain ⟨c', hc'⟩ := Option.isSome_iff_exists.1 hs
          exact fieldsLoop_default_emitted cks dflts deps v p [] out1 n c' d hfl
            (alookup_mem hc') (mem_alookup_nodup hndd hm)
        obtain ⟨he21, hcov1⟩ := defaultsLoop_ok_of_fields dflts cks v p out1 out2 hndd hB hdl
        have hrd1 : resolveDeps deps out1 = none := by
          rw [he21] at hrd
          exact hrd
        have hw1 : w = GoVal.strMap out1 := by
          rw [he21] at hw
          exact hw
        subst hw1
        have hIH : ∀ nc ∈ cks, ∀ x y, coerce nc.2 x (p ++ [".", nc.1]) = Outcome.ok y →
            coerce nc.2 y (p ++ [".", nc.1]) = Outcome.ok y := by
          intro nc hm x y hxy
          have hmem := List.sizeOf_lt_of_mem hm
          have hszc : sizeOf nc.2 < N := by
            obtain ⟨nm, cc⟩ := nc
            simp only [Prod.mk.sizeOf_spec] at hmem
            simp only [Checker.schemaC.sizeOf_spec, Schema.mk.sizeOf_spec] at hsz
            simp only
            omega
          exact ihN (sizeOf nc.2) hszc nc.2 le_rfl (plainL_mem cks hpl nc hm)
            x (p ++ [".", nc.1]) y hxy
        have hfl2 : fieldsLoop cks dflts deps (GoVal.strMap out1) p [] = Outcome.ok out1 :=
          fieldsLoop_rerun cks dflts deps v p [] out1 hIH (by simpa [nodupKeys] using hndc) hfl
        have hout1names : ∀ kv ∈ out1, kv.1 ∈ cks.map Prod.fst := by
          obtain ⟨tail, htl, hnames⟩ := fieldsLoop_acc cks dflts deps v p [] out1 hfl
          simp only [List.nil_append] at htl
          subst htl
          exact hnames
        have hsc2 : (if st = true then strictCheck cks p (strictPairs (GoVal.strMap out1))
            else none) = none := by
          cases st
          · simp
          · rw [if_pos rfl]
            apply strictCheck_none
            intro kv hkv
            rw [alookup_isSome]
            exact hout1names kv (by simpa [strictPairs] using hkv)
        obtain ⟨hdl2, _⟩ := defaultsLoop_skip_all dflts cks (GoVal.strMap out1) p out1 hcov1
        simp [schemaCoerce, isMapVal, hasStrictStringKeys, hsc2, hfl2, hdl2, hrd1]

/-- C7 amended: coercion is idempotent for every checker tree built
from Any, Const, Empty, FieldMap and StrictFieldMap with duplicate-free
Schema maps (as Go maps guarantee): if Coerce(v, p) succeeds with
output w then Coerce(w, p) succeeds with output w.  The alternation
combinators OneOf and FieldMapSet are excluded: re-coercion can make an
earlier alternative accept, as the counterexample shows. -/
theorem C7_idempotent_plain (c : Checker) (v w : GoVal) (p : List String)
    (hp : plainC c = true) (h : coerce c v p = Outcome.ok w) :
    coerce c w p = Outcome.ok w :=
  idemAux (sizeOf c) c le_rfl hp v p w h

/-- Witness for C7 at a schema with a present field and a defaulted
field. -/
theorem C7_witness :
    plainC (Checker.schemaC (Schema.mk
        [("a", Checker.anyC), ("b", Checker.constC (GoVal.int 3))]
        [("b", Dflt.value (GoVal.int 3))] [] false)) = true ∧
    coerce (Checker.schemaC (Schema.mk
        [("a", Checker.anyC), ("b", Checker.constC (GoVal.int 3))]
        [("b", Dflt.value (GoVal.int 3))] [] false))
      (GoVal.strMap [("a", GoVal.int 1)]) [] =
      Outcome.ok (GoVal.strMap [("a", GoVal.int 1), ("b", GoVal.int 3)]) ∧
    coerce (Checker.schemaC (Schema.mk
        [("a", Checker.anyC), ("b", Checker.constC (GoVal.int 3))]
        [("b", Dflt.value (GoVal.int 3))] [] false))
      (GoVal.strMap [("a", GoVal.int 1), ("b", GoVal.int 3)]) [] =
      Outcome.ok (GoVal.strMap [("a", GoVal.int 1), ("b", GoVal.int 3)]) := by
  have hp : plainC (Checker.schemaC (Schema.mk
      [("a", Checker.anyC), ("b", Checker.constC (GoVal.int 3))]
      [("b", Dflt.value (GoVal.int 3))] [] false)) = true := by
    simp [plainC, plainS, plainL, nodupKeys]
  have h1 : coerce (Checker.schemaC (Schema.mk
      [("a", Checker.anyC), ("b", Checker.constC (GoVal.int 3))]
      [("b", Dflt.value (GoVal.int 3))] [] false))
      (GoVal.strMap [("a", GoVal.int 1)]) [] =
      Outcome.ok (GoVal.strMap [("a", GoVal.int 1), ("b", GoVal.int 3)]) := by
    simp [coerce, schemaCoerce, fieldsLoop, defaultsLoop, resolveDeps, mapIndexStr, alookup,
      isMapVal, hasStrictStringKeys, strictPairs, strictCheck]
  exact ⟨hp, h1, C7_idempotent_plain _ _ _ _ hp h1⟩

end JujuSchema
